import Mathlib

/-!
Verification development for the `autoinit` reflective object-graph
initializer (Go).  The traversal engine (`AutoInitWithOptions`,
`initStructWithVisited`, `callInitIfExists`, the hook callers, `InitError`),
the component finder (`finder.go`) and the typed dependency lookup
(`As`/`searchInStruct`) are shallowly embedded below; the embedding follows
the Go source line by line.

Modelling conventions:
* A Go object graph is a finite heap `Heap` mapping pointer addresses
  (`Nat`) to values, plus an inductive value type `Val`.  Inline (by-value)
  structs are nested directly; pointers are heap addresses, so cycles are
  expressed through the heap.
* Method sets are abstracted into capability flags (`Caps`): a flag is true
  iff the (addressable) value's pointer type implements the corresponding
  interface (`ParentInitializer`, `ContextInitializer`, `SimpleInitializer`,
  `PreInitializer`, `PostInitializer`, `PreFieldHook`, `PostFieldHook`).
  The behaviour of the user-supplied methods is abstracted into `Beh`: each
  method either succeeds (`none`) or returns an error with a message.
* Every invocation of user code (hooks, initializers) is recorded as an
  `Event`; the traversal returns the event trace, the final error and the
  final visited list.  This mirrors exactly which calls the Go engine makes
  and in which order.
* The recursion is driven by a fuel counter that decreases at every
  recursive call, making the definitions structurally recursive and fully
  executable; `fuelBound` computes a fuel that is provably sufficient for
  any heap (this is the termination argument for cyclic graphs).
* The model covers the default `DisableCycleDetection = false` configuration
  (the visited map is always active), which is the configuration all the
  verified claims are about.
-/

namespace Autoinit

/-- Association-list lookup for Go struct tags (`reflect.StructTag.Lookup`):
`none` when the key is absent. -/
def tagLookup : List (String × String) → String → Option String
  | [], _ => none
  | (k, v) :: rest, key => if k = key then some v else tagLookup rest key

/-- `reflect.StructTag.Get`: like `Lookup` but returns `""` when absent. -/
def tagGet (tags : List (String × String)) (key : String) : String :=
  (tagLookup tags key).getD ""

/-- Per-field metadata: name, exportedness and the struct tag list. -/
structure FieldMeta where
  name : String
  exported : Bool
  tags : List (String × String)
deriving Repr, DecidableEq

/-- Which of the seven optional interfaces the struct's pointer type
implements. -/
structure Caps where
  parentInit : Bool
  ctxInit : Bool
  simpleInit : Bool
  preInitHook : Bool
  postInitHook : Bool
  preFieldHook : Bool
  postFieldHook : Bool
deriving Repr, DecidableEq

/-- Outcome of each user-supplied method: `none` = success, `some msg` =
the method returns an error with that message. -/
structure Beh where
  initRes : Option String
  preInitRes : Option String
  postInitRes : Option String
  preFieldRes : Option String
  postFieldRes : Option String
deriving Repr, DecidableEq

/-- Static information about a struct type: its name, capabilities and the
behaviour of its methods. -/
structure SInfo where
  ty : String
  caps : Caps
  beh : Beh
deriving Repr, DecidableEq

/-- The `reflect.Kind` of a collection's static element type, as tested by
`initStructWithVisited` for slices/arrays/maps (struct, pointer-to-struct,
interface, or anything else). -/
inductive ElemTy where
  | structTy
  | ptrToStructTy
  | ifaceTy
  | otherTy
deriving Repr, DecidableEq

/-- A Go value as seen by the traversal.  `ptrV none` is a nil pointer;
`ptrV (some a)` points at heap address `a`.  `ifaceV` is a non-nil
interface value (its `reflect.Kind` is `Interface`, which the engine's
kind switch skips). -/
inductive Val where
  | structV : SInfo → List (FieldMeta × Val) → Val
  | ptrV : Option Nat → Val
  | ifaceV : Val → Val
  | sliceV : ElemTy → List Val → Val
  | mapV : ElemTy → List (String × Val) → Val
  | otherV : Val

/-- The heap: pointer address to pointee. -/
abbrev Heap := List (Nat × Val)

def lookupHeap (h : Heap) (a : Nat) : Option Val :=
  match h with
  | [] => none
  | (b, v) :: rest => if b = a then some v else lookupHeap rest a

/-- Which `Init` variant was selected (`Init(ctx,parent)`, `Init(ctx)`,
`Init()`). -/
inductive InitKind where
  | withParent
  | withCtx
  | noArg
deriving Repr, DecidableEq

/-- One invocation of user code.  `preField`/`postField` carry the path of
the *container* struct whose hook runs, plus the container type and the
field name passed to the hook. -/
inductive Event where
  | preSelf : List String → String → Event
  | postSelf : List String → String → Event
  | preField : List String → String → String → Event
  | postField : List String → String → String → Event
  | initCall : List String → String → InitKind → Event
deriving Repr, DecidableEq

/-- Traversal-level errors: either a raw user error (returned unchanged by
`callPreFieldHook`/`callPostFieldHook`) or the structured `InitError`
(path, failing type string, cause). -/
inductive Err where
  | user : String → Err
  | initError : List String → String → Err → Err
deriving Repr, DecidableEq

/-- `Options`: the `RequireTags` switch (the modelled configuration keeps
cycle detection enabled, the default). -/
structure Options where
  requireTags : Bool
deriving Repr, DecidableEq

/-- Result of a traversal step: events emitted so far, the error (if any)
and the visited list.  Addresses are consed onto `vis` as the Go code marks
them in its `visited` map. -/
structure Out where
  events : List Event
  err : Option Err
  vis : List Nat
deriving Repr, DecidableEq

/-- `ptr.Type().String()` for the (addressable) struct value, as stored in
`InitError.FieldType`. -/
def ptrTyName (info : SInfo) : String := "*" ++ info.ty

/-- `callPreInit`: invoke `PreInit(ctx)` when implemented; an error is
wrapped in `InitError{Path, FieldType, Cause}`. -/
def callPreInit (info : SInfo) (path : List String) : List Event × Option Err :=
  if info.caps.preInitHook then
    ([.preSelf path info.ty],
      info.beh.preInitRes.map fun m => .initError path (ptrTyName info) (.user m))
  else ([], none)

/-- `callPostInit`: invoke `PostInit(ctx)` when implemented; error wrapped
in `InitError`. -/
def callPostInit (info : SInfo) (path : List String) : List Event × Option Err :=
  if info.caps.postInitHook then
    ([.postSelf path info.ty],
      info.beh.postInitRes.map fun m => .initError path (ptrTyName info) (.user m))
  else ([], none)

/-- `callInitIfExists`: priority order `Init(ctx, parent)` over `Init(ctx)`
over `Init()`; exactly the first implemented variant is invoked, its error
wrapped in `InitError`.  (The Go source repeats the same three checks on the
value receiver for non-addressable values; the capability flags abstract
over the receiver form, and the priority order is identical there.) -/
def callInitIfExists (info : SInfo) (path : List String) : List Event × Option Err :=
  if info.caps.parentInit then
    ([.initCall path info.ty .withParent],
      info.beh.initRes.map fun m => .initError path (ptrTyName info) (.user m))
  else if info.caps.ctxInit then
    ([.initCall path info.ty .withCtx],
      info.beh.initRes.map fun m => .initError path (ptrTyName info) (.user m))
  else if info.caps.simpleInit then
    ([.initCall path info.ty .noArg],
      info.beh.initRes.map fun m => .initError path (ptrTyName info) (.user m))
  else ([], none)

/-- `callPreFieldHook`: invoke the container's `PreFieldInit` when
implemented.  NOTE (faithful to source): a hook error is returned *raw*,
not wrapped in `InitError`. -/
def callPreFieldHook (cinfo : SInfo) (parentPath : List String) (fieldName : String) :
    List Event × Option Err :=
  if cinfo.caps.preFieldHook then
    ([.preField parentPath cinfo.ty fieldName], cinfo.beh.preFieldRes.map .user)
  else ([], none)

/-- `callPostFieldHook`: same, for `PostFieldInit`; error returned raw. -/
def callPostFieldHook (cinfo : SInfo) (parentPath : List String) (fieldName : String) :
    List Event × Option Err :=
  if cinfo.caps.postFieldHook then
    ([.postField parentPath cinfo.ty fieldName], cinfo.beh.postFieldRes.map .user)
  else ([], none)

/-- Element-type test used for `hasInitializableElements`: struct,
pointer-to-struct or interface. -/
def qualifiesElem : ElemTy → Bool
  | .structTy => true
  | .ptrToStructTy => true
  | .ifaceTy => true
  | .otherTy => false

/-- `field.Elem().Kind() == reflect.Struct` for a non-nil pointer field. -/
def pointeeIsStruct (h : Heap) (a : Nat) : Bool :=
  match lookupHeap h a with
  | some (.structV _ _) => true
  | _ => false

/-- Work items of the traversal: a value to initialize, a struct body, a
field list, slice elements, map entries. -/
inductive Item where
  | ival : Val → List String → Item
  | ibody : SInfo → List (FieldMeta × Val) → List String → Item
  | ifields : SInfo → List (FieldMeta × Val) → List String → Item
  | ielems : List Val → List String → Nat → Item
  | ientries : List (String × Val) → List String → Item

/-- Sequence a completed step with a continuation; on error the remaining
work is aborted (Go's immediate `return err`). -/
def bindOut (a : Option Out) (k : List Nat → Option Out) : Option Out :=
  match a with
  | none => none
  | some o =>
    if o.err.isSome then some o
    else
      match k o.vis with
      | none => none
      | some o₂ => some ⟨o.events ++ o₂.events, o₂.err, o₂.vis⟩

/-- Run a (non-recursive) hook invocation, then the continuation; a hook
error aborts. -/
def hookStep (he : List Event × Option Err) (vis : List Nat) (k : Unit → Option Out) :
    Option Out :=
  match he.2 with
  | some e => some ⟨he.1, some e, vis⟩
  | none =>
    match k () with
    | none => none
    | some o => some ⟨he.1 ++ o.events, o.err, o.vis⟩

/-- The recursive traversal engine, transcribing `initStructWithVisited`.
`fuel` decreases at every recursive call (structural recursion); `none`
means the fuel ran out — `fuelBound` below always suffices.

* `ival v path` — `initStructWithVisited(ctx, v, parent, path, …)`:
  nil pointers are skipped; a pointer whose address is already visited is
  skipped (cycle rule); otherwise the address is marked and the pointee
  processed; non-struct kinds are skipped.
* `ibody` — the struct body: `PreInit` hook, the field loop,
  `callInitIfExists`, `PostInit` hook.
* `ifields` — the field loop with the unexported / `autoinit:"-"` /
  `RequireTags` skips and the per-kind `switch`.
* `ielems` / `ientries` — the slice/array and map element loops. -/
def run (h : Heap) (o : Options) : Nat → List Nat → Item → Option Out
  | 0, _, _ => none
  | fuel + 1, vis, it =>
    match it with
    | .ival v path =>
      match v with
      | .ptrV none => some ⟨[], none, vis⟩
      | .ptrV (some a) =>
        if a ∈ vis then some ⟨[], none, vis⟩
        else
          match lookupHeap h a with
          | some (.structV info fs) => run h o fuel (a :: vis) (.ibody info fs path)
          | _ => some ⟨[], none, a :: vis⟩
      | .structV info fs => run h o fuel vis (.ibody info fs path)
      | _ => some ⟨[], none, vis⟩
    | .ibody info fs path =>
      hookStep (callPreInit info path) vis fun _ =>
        bindOut (run h o fuel vis (.ifields info fs path)) fun vis₁ =>
          hookStep (callInitIfExists info path) vis₁ fun _ =>
            hookStep (callPostInit info path) vis₁ fun _ =>
              some ⟨[], none, vis₁⟩
    | .ifields cinfo fs path =>
      match fs with
      | [] => some ⟨[], none, vis⟩
      | (m, fv) :: rest =>
        if ¬ m.exported then run h o fuel vis (.ifields cinfo rest path)
        else if tagGet m.tags "autoinit" = "-" then run h o fuel vis (.ifields cinfo rest path)
        else if o.requireTags ∧ (tagLookup m.tags "autoinit").isNone then
          run h o fuel vis (.ifields cinfo rest path)
        else
          match fv with
          | .structV info fs' =>
            hookStep (callPreFieldHook cinfo path m.name) vis fun _ =>
              bindOut (run h o fuel vis (.ival (.structV info fs') (path ++ [m.name]))) fun vis₁ =>
                hookStep (callPostFieldHook cinfo path m.name) vis₁ fun _ =>
                  run h o fuel vis₁ (.ifields cinfo rest path)
          | .ptrV (some a) =>
            if pointeeIsStruct h a then
              hookStep (callPreFieldHook cinfo path m.name) vis fun _ =>
                bindOut (run h o fuel vis (.ival (.ptrV (some a)) (path ++ [m.name]))) fun vis₁ =>
                  hookStep (callPostFieldHook cinfo path m.name) vis₁ fun _ =>
                    run h o fuel vis₁ (.ifields cinfo rest path)
            else run h o fuel vis (.ifields cinfo rest path)
          | .ptrV none => run h o fuel vis (.ifields cinfo rest path)
          | .sliceV et es =>
            let hasInit := decide (0 < es.length) && qualifiesElem et
            hookStep (if hasInit then callPreFieldHook cinfo path m.name else ([], none))
              vis fun _ =>
              bindOut (run h o fuel vis (.ielems es (path ++ [m.name]) 0)) fun vis₁ =>
                hookStep (if hasInit then callPostFieldHook cinfo path m.name else ([], none))
                  vis₁ fun _ =>
                  run h o fuel vis₁ (.ifields cinfo rest path)
          | .mapV et ents =>
            let hasInit := qualifiesElem et
            hookStep (if hasInit then callPreFieldHook cinfo path m.name else ([], none))
              vis fun _ =>
              bindOut (run h o fuel vis (.ientries ents (path ++ [m.name]))) fun vis₁ =>
                hookStep (if hasInit then callPostFieldHook cinfo path m.name else ([], none))
                  vis₁ fun _ =>
                  run h o fuel vis₁ (.ifields cinfo rest path)
          | .ifaceV _ => run h o fuel vis (.ifields cinfo rest path)
          | .otherV => run h o fuel vis (.ifields cinfo rest path)
    | .ielems es fieldPath idx =>
      match es with
      | [] => some ⟨[], none, vis⟩
      | e :: restEs =>
        bindOut (run h o fuel vis (.ival e (fieldPath ++ ["[" ++ toString idx ++ "]"]))) fun vis₁ =>
          run h o fuel vis₁ (.ielems restEs fieldPath (idx + 1))
    | .ientries ents fieldPath =>
      match ents with
      | [] => some ⟨[], none, vis⟩
      | (key, entryV) :: restEnts =>
        match entryV with
        | .structV info fs' =>
          -- Go copies the (non-addressable) map struct value, initializes the
          -- copy through a fresh pointer and reassigns it; the fresh address
          -- is never re-encountered, so recursing on the struct directly is
          -- observationally identical.
          bindOut (run h o fuel vis (.ival (.structV info fs') (fieldPath ++ ["[" ++ key ++ "]"])))
            fun vis₁ => run h o fuel vis₁ (.ientries restEnts fieldPath)
        | .ptrV (some a) =>
          bindOut (run h o fuel vis (.ival (.ptrV (some a)) (fieldPath ++ ["[" ++ key ++ "]"])))
            fun vis₁ => run h o fuel vis₁ (.ientries restEnts fieldPath)
        | _ => run h o fuel vis (.ientries restEnts fieldPath)

/-- The root target of `AutoInitWithOptions`: a nil interface, a pointer
(possibly nil), or a non-pointer value. -/
inductive Target where
  | nilT : Target
  | byPtr : Option Nat → Target
  | byVal : Val → Target

/-- Top-level errors: the three immediate validation failures (the spec's
`InvalidTargetError` class, `fmt.Errorf` in the source) are distinct by
construction from errors produced by the traversal. -/
inductive RootErr where
  | invalidTarget : String → RootErr
  | fromRun : Err → RootErr
deriving Repr, DecidableEq

/-- `AutoInitWithOptions` with explicit fuel: validate the root (nil, nil
pointer, struct-or-pointer-to-struct), then run the traversal on the
dereferenced struct with a fresh empty visited list.  Note that the root
pointer's address is *not* recorded: the source dereferences the pointer
before calling `initStructWithVisited`. -/
def autoInitFuel (h : Heap) (o : Options) (fuel : Nat) (t : Target) :
    Option (List Event × Option RootErr) :=
  match t with
  | .nilT => some ([], some (.invalidTarget "cannot initialize nil target"))
  | .byPtr none => some ([], some (.invalidTarget "cannot initialize nil pointer"))
  | .byPtr (some a) =>
    match lookupHeap h a with
    | some (.structV info fs) =>
      (run h o fuel [] (.ibody info fs [])).map fun out =>
        (out.events, out.err.map .fromRun)
    | _ => some ([], some (.invalidTarget "target must be a struct or pointer to struct"))
  | .byVal (.structV info fs) =>
    (run h o fuel [] (.ibody info fs [])).map fun out =>
      (out.events, out.err.map .fromRun)
  | .byVal _ => some ([], some (.invalidTarget "target must be a struct or pointer to struct"))

mutual

/-- Weight of a value, used to bound the fuel. -/
def wVal : Val → Nat
  | .structV _ fs => 3 + wFieldList fs
  | .ptrV _ => 1
  | .ifaceV _ => 1
  | .sliceV _ es => 1 + wValList es
  | .mapV _ ents => 1 + wEntryList ents
  | .otherV => 1

def wFieldList : List (FieldMeta × Val) → Nat
  | [] => 1
  | (_, v) :: rest => 1 + wVal v + wFieldList rest

def wValList : List Val → Nat
  | [] => 1
  | v :: rest => 1 + wVal v + wValList rest

def wEntryList : List (String × Val) → Nat
  | [] => 1
  | (_, v) :: rest => 1 + wVal v + wEntryList rest

end

/-- Weight of a work item, used to bound the fuel. -/
def wItem : Item → Nat
  | .ival v _ => wVal v
  | .ibody _ fs _ => 1 + wFieldList fs
  | .ifields _ fs _ => wFieldList fs
  | .ielems es _ _ => wValList es
  | .ientries ents _ => wEntryList ents

/-- Fuel budget still available from unvisited heap entries. -/
def heapB : Heap → List Nat → Nat
  | [], _ => 0
  | e :: t, vis => (if e.1 ∈ vis then 0 else 2 + wVal e.2) + heapB t vis

/-- A fuel amount provably sufficient for any target against heap `h`
(cyclic heaps included). -/
def fuelBound (h : Heap) (t : Target) : Nat :=
  (match t with
   | .byVal v => wVal v
   | _ => 1) + 2 * heapB h [] + 4

/-- `AutoInitWithOptions`: the fueled run at a provably sufficient fuel. -/
def autoInit (h : Heap) (o : Options) (t : Target) :
    Option (List Event × Option RootErr) :=
  autoInitFuel h o (fuelBound h t) t

/-! ## The component finder (`finder.go`) and the typed lookup (`As`)

The finder inspects values through `reflect` without marking visited
addresses, so it is modelled on a tree-shaped value type `FVal`: a non-nil
pointer carries its base type name, its identity (for the `== exclude`
interface comparison, which for pointer values is pointer identity) and its
pointee inline.  Go types appearing in queries are modelled by `GoTy`, with
interface satisfaction given by an explicit environment `impls` of
(dynamic type, interface name) pairs (the branch
`reflect.PtrTo(fieldType).Implements(target)` consults `(ptrTo base, i)`).
-/

/-- A Go type as used in `SearchOption.ByType` / the `As` target type. -/
inductive GoTy where
  | named : String → GoTy
  | ptrTo : String → GoTy
  | iface : String → GoTy
deriving Repr, DecidableEq

/-- Field metadata as the finder sees it (name, exportedness, whether the
field is embedded/anonymous, struct tags). -/
structure FMeta where
  name : String
  exported : Bool
  anonymous : Bool
  tags : List (String × String)
deriving Repr, DecidableEq

/-- A Go value for the finder: structs with fields, non-nil pointers
(base type, identity, pointee), nil pointers, slices/arrays, maps, other. -/
inductive FVal where
  | fstruct : String → List (FMeta × FVal) → FVal
  | fptr : String → Nat → FVal → FVal
  | fnilptr : String → FVal
  | fslice : List FVal → FVal
  | fmap : List (String × FVal) → FVal
  | fother : FVal

/-- `reflect.TypeOf(field.Interface())` restricted to struct and pointer
values (the kinds the finder's type queries are about). -/
def dynTy : FVal → Option GoTy
  | .fstruct n _ => some (.named n)
  | .fptr n _ _ => some (.ptrTo n)
  | .fnilptr n => some (.ptrTo n)
  | _ => none

/-- `matchesType` (finder.go): direct match, pointer/value symmetry in both
directions, both-pointers-same-element, and interface satisfaction
(including `reflect.PtrTo` for non-pointer field types). -/
def matchesType (impls : List (GoTy × String)) (fv : FVal) (target : GoTy) : Bool :=
  match dynTy fv with
  | none => false
  | some ft =>
    if ft = target then true
    else if (match target, ft with
             | .ptrTo e, .named f => e == f
             | _, _ => false) then true
    else if (match ft, target with
             | .ptrTo e, .named f => e == f
             | _, _ => false) then true
    else if (match target, ft with
             | .ptrTo e, .ptrTo f => e == f
             | _, _ => false) then true
    else
      match target with
      | .iface i =>
        (impls.contains (ft, i)) ||
          (match ft with
           | .named f => impls.contains (.ptrTo f, i)
           | _ => false)
      | _ => false

/-- `matchesTargetType` (the `As` implementation): textually the same logic
as `matchesType`, kept as a separate definition to mirror the source. -/
def matchesTargetType (impls : List (GoTy × String)) (fv : FVal) (target : GoTy) : Bool :=
  match dynTy fv with
  | none => false
  | some ft =>
    if ft = target then true
    else if (match target, ft with
             | .ptrTo e, .named f => e == f
             | _, _ => false) then true
    else if (match ft, target with
             | .ptrTo e, .named f => e == f
             | _, _ => false) then true
    else if (match target, ft with
             | .ptrTo e, .ptrTo f => e == f
             | _, _ => false) then true
    else
      match target with
      | .iface i =>
        (impls.contains (ft, i)) ||
          (match ft with
           | .named f => impls.contains (.ptrTo f, i)
           | _ => false)
      | _ => false

/-- `SearchOption`: zero values (`nil` type, `""` strings) mean "predicate
not supplied", exactly as in the source. -/
structure SearchOption where
  byType : Option GoTy
  byJSONTag : String
  byFieldName : String
  byCustomTag : String
  tagKey : String
deriving Repr, DecidableEq

/-- `strings.EqualFold` (simple case folding on the character lists; ASCII
folding suffices for Go identifiers). -/
def eqFold (a b : String) : Bool := a.data.map Char.toLower == b.data.map Char.toLower

/-- First comma-separated segment of the `json` struct tag. -/
def jsonTagFirst (tags : List (String × String)) : String :=
  ((tagGet tags "json").splitOn ",").headD ""

/-- The `fieldInterface == exclude` comparison: for pointer values this is
pointer identity; the finder's `self` is modelled by its identity. -/
def isExcluded (ex : Option Nat) (fv : FVal) : Bool :=
  match ex, fv with
  | some i, .fptr _ j _ => i = j
  | _, _ => false

def isNilPtrF : FVal → Bool
  | .fnilptr _ => true
  | _ => false

/-- `matchesOption` (finder.go): NOTE (faithful to source) each supplied
predicate that matches returns `true` immediately — the predicates combine
as a disjunction, not a conjunction. -/
def matchesOption (impls : List (GoTy × String)) (m : FMeta) (fv : FVal)
    (opt : SearchOption) : Bool :=
  (match opt.byType with
   | some t => matchesType impls fv t
   | none => false) ||
  (opt.byFieldName ≠ "" && eqFold m.name opt.byFieldName) ||
  (opt.byJSONTag ≠ "" && jsonTagFirst m.tags = opt.byJSONTag) ||
  (opt.byCustomTag ≠ "" && opt.tagKey ≠ "" && tagGet m.tags opt.tagKey = opt.byCustomTag)

/-- `matchesValue` (finder.go): collection elements match by type only. -/
def matchesValue (impls : List (GoTy × String)) (fv : FVal) (opt : SearchOption) : Bool :=
  match opt.byType with
  | some t => matchesType impls fv t
  | none => false

/-- The slice/array element scan inside `searchSiblings`. -/
def scanElems (impls : List (GoTy × String)) :
    List FVal → Option Nat → SearchOption → Option FVal
  | [], _, _ => none
  | e :: rest, ex, opt =>
    if ¬ isExcluded ex e ∧ matchesValue impls e opt then some e
    else scanElems impls rest ex opt

/-- The map value scan inside `searchSiblings`. -/
def scanMapVals (impls : List (GoTy × String)) :
    List (String × FVal) → Option Nat → SearchOption → Option FVal
  | [], _, _ => none
  | (_, v) :: rest, ex, opt =>
    if ¬ isExcluded ex v ∧ matchesValue impls v opt then some v
    else scanMapVals impls rest ex opt

/-- Is the value a struct or a non-nil pointer whose pointee is a struct
(the embedded-field recursion guard)? -/
def isStructOrPtrStruct : FVal → Bool
  | .fstruct _ _ => true
  | .fptr _ _ (.fstruct _ _) => true
  | _ => false

mutual

/-- `searchSiblings` (finder.go): dereference a pointer parent, require a
struct, then scan the fields in declaration order.  The found field value
is returned (the source returns `field.Addr().Interface()` for addressable
value fields — the address-of wrapping is abstracted away, the model
returns the field's value). -/
def searchSiblings (impls : List (GoTy × String)) :
    Nat → FVal → Option Nat → SearchOption → Option FVal
  | 0, _, _, _ => none
  | fuel + 1, parent, ex, opt =>
    match (match parent with
           | .fptr _ _ inner => inner
           | x => x) with
    | .fstruct _ fields => searchFieldList impls fuel fields ex opt
    | _ => none

/-- The field loop of `searchSiblings`: per field, in order — skip
unexported / self / nil pointer; direct `matchesOption` match; embedded
anonymous struct recursion; slice/array element scan; map value scan. -/
def searchFieldList (impls : List (GoTy × String)) :
    Nat → List (FMeta × FVal) → Option Nat → SearchOption → Option FVal
  | 0, _, _, _ => none
  | _ + 1, [], _, _ => none
  | fuel + 1, (m, fv) :: rest, ex, opt =>
    if ¬ m.exported then searchFieldList impls fuel rest ex opt
    else if isExcluded ex fv then searchFieldList impls fuel rest ex opt
    else if isNilPtrF fv then searchFieldList impls fuel rest ex opt
    else if matchesOption impls m fv opt then some fv
    else
      match (if m.anonymous && isStructOrPtrStruct fv then
               searchSiblings impls fuel fv ex opt
             else none) with
      | some r => some r
      | none =>
        match (match fv with
               | .fslice elems => scanElems impls elems ex opt
               | _ => none) with
        | some r => some r
        | none =>
          match (match fv with
                 | .fmap ents => scanMapVals impls ents ex opt
                 | _ => none) with
          | some r => some r
          | none => searchFieldList impls fuel rest ex opt

end

/-- The `As` filters (`WithFieldName`, `WithJSONTag`, `WithTag`). -/
inductive Filter where
  | withFieldName : String → Filter
  | withJSONTag : String → Filter
  | withTag : String → String → Filter
deriving Repr, DecidableEq

/-- `Filter.Matches` for each filter kind (the field value argument is
unused by all three implementations). -/
def filterMatches (m : FMeta) : Filter → Bool
  | .withFieldName n => eqFold m.name n
  | .withJSONTag t => jsonTagFirst m.tags = t
  | .withTag k v => tagGet m.tags k = v

/-- `matchesAllFilters`: every supplied filter must match (conjunction). -/
def matchesAllFilters (m : FMeta) (filters : List Filter) : Bool :=
  filters.all (filterMatches m)

/-- First loop of `searchInStruct`: direct struct fields, requiring the
target type *and* all filters. -/
def firstPassFields (impls : List (GoTy × String)) :
    List (FMeta × FVal) → Option Nat → GoTy → List Filter → Option FVal
  | [], _, _, _ => none
  | (m, fv) :: rest, ex, ty, filters =>
    if ¬ m.exported then firstPassFields impls rest ex ty filters
    else if isExcluded ex fv then firstPassFields impls rest ex ty filters
    else if isNilPtrF fv then firstPassFields impls rest ex ty filters
    else if ¬ matchesTargetType impls fv ty then firstPassFields impls rest ex ty filters
    else if ¬ matchesAllFilters m filters then firstPassFields impls rest ex ty filters
    else some fv

/-- Slice/array element scan of `searchInStruct`'s second loop: an element
is returned only when it matches the target type *and* no filters were
supplied (`len(filters) == 0`); with filters present the element is passed
over. -/
def asScanElems (impls : List (GoTy × String)) :
    List FVal → Option Nat → GoTy → List Filter → Option FVal
  | [], _, _, _ => none
  | e :: rest, ex, ty, filters =>
    if ¬ isExcluded ex e ∧ matchesTargetType impls e ty ∧ filters = [] then some e
    else asScanElems impls rest ex ty filters

/-- Map value scan of `searchInStruct`'s second loop, same filter guard. -/
def asScanMapVals (impls : List (GoTy × String)) :
    List (String × FVal) → Option Nat → GoTy → List Filter → Option FVal
  | [], _, _, _ => none
  | (_, v) :: rest, ex, ty, filters =>
    if ¬ isExcluded ex v ∧ matchesTargetType impls v ty ∧ filters = [] then some v
    else asScanMapVals impls rest ex ty filters

mutual

/-- `searchInStruct` (the `As` implementation): dereference, require a
struct, run the direct-field pass, then the second pass over slices, maps
and embedded structs. -/
def searchInStruct (impls : List (GoTy × String)) :
    Nat → FVal → Option Nat → GoTy → List Filter → Option FVal
  | 0, _, _, _, _ => none
  | fuel + 1, parent, ex, ty, filters =>
    match (match parent with
           | .fptr _ _ inner => inner
           | x => x) with
    | .fstruct _ fields =>
      match firstPassFields impls fields ex ty filters with
      | some r => some r
      | none => secondPass impls fuel fields ex ty filters
    | _ => none

/-- Second loop of `searchInStruct`: per field, in order — slice scan, map
scan, embedded anonymous struct recursion. -/
def secondPass (impls : List (GoTy × String)) :
    Nat → List (FMeta × FVal) → Option Nat → GoTy → List Filter → Option FVal
  | 0, _, _, _, _ => none
  | _ + 1, [], _, _, _ => none
  | fuel + 1, (m, fv) :: rest, ex, ty, filters =>
    match (match fv with
           | .fslice elems => asScanElems impls elems ex ty filters
           | _ => none) with
    | some r => some r
    | none =>
      match (match fv with
             | .fmap ents => asScanMapVals impls ents ex ty filters
             | _ => none) with
      | some r => some r
      | none =>
        match (if m.anonymous && isStructOrPtrStruct fv then
                 searchInStruct impls fuel fv ex ty filters
               else none) with
        | some r => some r
        | none => secondPass impls fuel rest ex ty filters

end

/-- `asSearch`: `nil` parent yields `nil`, otherwise `searchInStruct`. -/
def asSearch (impls : List (GoTy × String)) (fuel : Nat) (parent : Option FVal)
    (ex : Option Nat) (ty : GoTy) (filters : List Filter) : Option FVal :=
  match parent with
  | none => none
  | some p => searchInStruct impls fuel p ex ty filters

/-- Modelled from the spec: the conjunctive sibling matcher the spec
describes ("All supplied predicates must match (conjunction)") — a field
matches only if *every* supplied predicate holds.  This is the refinement
comparator for the Finder claim; `matchesOption` above is the source's
actual (disjunctive) matcher. -/
def specMatchesAllOption (impls : List (GoTy × String)) (m : FMeta) (fv : FVal)
    (opt : SearchOption) : Bool :=
  (match opt.byType with
   | some t => matchesType impls fv t
   | none => true) &&
  (opt.byFieldName = "" || eqFold m.name opt.byFieldName) &&
  (opt.byJSONTag = "" || jsonTagFirst m.tags = opt.byJSONTag) &&
  (opt.byCustomTag = "" || opt.tagKey = "" || tagGet m.tags opt.tagKey = opt.byCustomTag)

/-! ## Predicates and example graphs used in the theorem statements -/

/-- The per-field eligibility of the traversal's field loop: exported, not
`autoinit:"-"`, and (when `RequireTags`) carrying some `autoinit` tag. -/
def fieldEligible (o : Options) (m : FieldMeta) : Bool :=
  m.exported && !(tagGet m.tags "autoinit" == "-") &&
    !(o.requireTags && (tagLookup m.tags "autoinit").isNone)

/-- The root validation predicate: nil target, nil pointer, or not (a
pointer to) a struct. -/
def targetInvalid (h : Heap) : Target → Bool
  | .nilT => true
  | .byPtr none => true
  | .byPtr (some a) =>
    match lookupHeap h a with
    | some (.structV _ _) => false
    | _ => true
  | .byVal (.structV _ _) => false
  | .byVal _ => true

/-- Is the top-level error an invalid-target error? -/
def isInvalidTargetErr : Option RootErr → Bool
  | some (.invalidTarget _) => true
  | _ => false

/-- Is the top-level error a structured `InitError`? -/
def isWrappedErr : RootErr → Bool
  | .fromRun (.initError _ _ _) => true
  | _ => false

/-- Shape of every error the traversal can produce: either a raw user error
or an `InitError` whose cause is a raw user error (wrapped exactly once). -/
def errShape : Err → Prop
  | .user _ => True
  | .initError _ _ (.user _) => True
  | .initError _ _ _ => False

/-- `errShape` lifted to the optional error of a traversal result. -/
def errOK : Option Err → Prop
  | none => True
  | some e => errShape e

/-- The parent path of a field-hook event (`none` for other events). -/
def fieldHookDepth : Event → Option Nat
  | .preField p _ _ => some p.length
  | .postField p _ _ => some p.length
  | _ => none

/-- All field-hook events in the list have parent-path length at least `b`. -/
def depthGE (b : Nat) (evs : List Event) : Prop :=
  ∀ ev ∈ evs, ∀ d, fieldHookDepth ev = some d → b ≤ d

/-- The field name of a field-hook event whose parent path is exactly `p`. -/
def hookAt (p : List String) : Event → Option String
  | .preField q _ n => if q = p then some n else none
  | .postField q _ n => if q = p then some n else none
  | _ => none

/-- Minimal parent-path length of the field-hook events an item can emit. -/
def itemDepth : Item → Nat
  | .ival _ p => p.length
  | .ibody _ _ p => p.length
  | .ifields _ _ p => p.length
  | .ielems _ p _ => p.length + 1
  | .ientries _ p => p.length + 1

/-- Declared field names of a field list. -/
def fieldNames (fs : List (FieldMeta × Val)) : List String :=
  fs.map fun f => f.1.name

/-- The initializer variant `callInitIfExists` selects (priority order). -/
def pickInit (c : Caps) : Option InitKind :=
  if c.parentInit then some .withParent
  else if c.ctxInit then some .withCtx
  else if c.simpleInit then some .noArg
  else none

/-- No capabilities, all methods succeed. -/
def capsNone : Caps := ⟨false, false, false, false, false, false, false⟩

def behOK : Beh := ⟨none, none, none, none, none⟩

/-- Only `Init(ctx)` implemented. -/
def ctxCaps : Caps := ⟨false, true, false, false, false, false, false⟩

/-- An exported field with no tags. -/
def plainMeta (n : String) : FieldMeta := ⟨n, true, []⟩

/-- The self-referential `Node` of `TestSelfReferentialCycle`:
`node.Next = node`. -/
def nodeInfo : SInfo := ⟨"Node", ctxCaps, behOK⟩

def selfHeap : Heap := [(0, .structV nodeInfo [(plainMeta "Next", .ptrV (some 0))])]

/-- The diamond of `TestDiamondDependency`: one container whose `Left` and
`Right` fields point at the same `SharedNode` instance. -/
def sharedInfo : SInfo := ⟨"SharedNode", ctxCaps, behOK⟩

def diamondContainer : SInfo := ⟨"Container", capsNone, behOK⟩

def diamondHeap : Heap :=
  [(0, .structV diamondContainer
        [(plainMeta "Left", .ptrV (some 1)), (plainMeta "Right", .ptrV (some 1))]),
   (1, .structV sharedInfo [])]

/-- The diamond shape parametrized over the type and field names: a plain
container (no capabilities) with two pointer fields to the same shared
struct, which implements `Init(ctx)`. -/
def diamondHeapP (cty sty lname rname : String) : Heap :=
  [(0, .structV ⟨cty, capsNone, behOK⟩
        [(plainMeta lname, .ptrV (some 1)), (plainMeta rname, .ptrV (some 1))]),
   (1, .structV ⟨sty, ctxCaps, behOK⟩ [])]

/-- A container implementing both field hooks whose `PreFieldInit` fails
with "boom", with a single struct field `Child`. -/
def fieldHookCaps : Caps := ⟨false, false, false, false, false, true, true⟩

def boomBeh : Beh := ⟨none, none, none, some "boom", none⟩

def hookErrContainer : SInfo := ⟨"HookContainer", fieldHookCaps, boomBeh⟩

def childInfo : SInfo := ⟨"Child", ctxCaps, behOK⟩

def hookErrHeap : Heap :=
  [(0, .structV hookErrContainer [(plainMeta "Child", .structV childInfo [])])]

/-- A container implementing both field hooks with an *empty* slice field
of struct element type. -/
def hooksOkContainer : SInfo := ⟨"HookContainer", fieldHookCaps, behOK⟩

def emptySliceHeap : Heap :=
  [(0, .structV hooksOkContainer [(plainMeta "Items", .sliceV .structTy [])])]

/-- Finder counterexample: parent struct with field `A` (a `*DB` pointer)
declared before field `B` (a `*Cache` pointer). -/
def cxFieldA : FMeta := ⟨"A", true, false, []⟩

def cxFieldB : FMeta := ⟨"B", true, false, []⟩

def cxValA : FVal := .fptr "DB" 1 (.fstruct "DB" [])

def cxValB : FVal := .fptr "Cache" 2 (.fstruct "Cache" [])

def cxParent : FVal := .fstruct "App" [(cxFieldA, cxValA), (cxFieldB, cxValB)]

/-- A query supplying two predicates: by type `*DB` and by field name "B". -/
def cxOpt : SearchOption := ⟨some (.ptrTo "DB"), "", "B", "", ""⟩

/-- `As` counterexample: parent whose only field is a slice holding one
`*DB` element. -/
def asSliceParent : FVal :=
  .fstruct "App" [(⟨"Databases", true, false, []⟩, .fslice [.fptr "DB" 1 (.fstruct "DB" [])])]

/-- Is a sibling field skipped by none of the three skip rules? -/
def siblingEligible (ex : Option Nat) (f : FMeta × FVal) : Bool :=
  f.1.exported && !isExcluded ex f.2 && !isNilPtrF f.2

/-- A "plain" field for the single-level Finder law: not embedded and not a
collection (so the embedded/slice/map scans of `searchFieldList` are
inert). -/
def plainFField (f : FMeta × FVal) : Bool :=
  !f.1.anonymous &&
    (match f.2 with
     | .fslice _ => false
     | .fmap _ => false
     | _ => true)

/-! ## Inversion and composition lemmas for the sequencing combinators -/

theorem hookStep_eq_some {he : List Event × Option Err} {vis : List Nat}
    {k : Unit → Option Out} {out : Out} (h : hookStep he vis k = some out) :
    (∃ e, he.2 = some e ∧ out = ⟨he.1, some e, vis⟩) ∨
    (he.2 = none ∧ ∃ o, k () = some o ∧ out = ⟨he.1 ++ o.events, o.err, o.vis⟩) := by
  unfold hookStep at h
  split at h
  · rename_i e he2
    simp only [Option.some.injEq] at h
    exact Or.inl ⟨e, he2, h.symm⟩
  · rename_i he2
    split at h
    · exact absurd h (by simp)
    · rename_i o ho
      simp only [Option.some.injEq] at h
      exact Or.inr ⟨he2, o, ho, h.symm⟩

theorem bindOut_eq_some {a : Option Out} {k : List Nat → Option Out} {out : Out}
    (h : bindOut a k = some out) :
    (∃ o, a = some o ∧ o.err.isSome = true ∧ out = o) ∨
    (∃ o o₂, a = some o ∧ o.err = none ∧ k o.vis = some o₂ ∧
      out = ⟨o.events ++ o₂.events, o₂.err, o₂.vis⟩) := by
  unfold bindOut at h
  split at h
  · exact absurd h (by simp)
  · rename_i o
    split at h
    · rename_i herr
      simp only [Option.some.injEq] at h
      exact Or.inl ⟨o, rfl, herr, h.symm⟩
    · rename_i herr
      split at h
      · exact absurd h (by simp)
      · rename_i o₂ ho₂
        simp only [Option.some.injEq] at h
        exact Or.inr ⟨o, o₂, rfl, by simpa using herr, ho₂, h.symm⟩

theorem hookStep_isSome {he : List Event × Option Err} {vis : List Nat}
    {k : Unit → Option Out} (hk : he.2 = none → (k ()).isSome = true) :
    (hookStep he vis k).isSome = true := by
  unfold hookStep
  split
  · simp
  · rename_i he2
    have := hk he2
    match hko : k () with
    | none => rw [hko] at this; simp at this
    | some o => simp [hko]

theorem bindOut_isSome {a : Option Out} {k : List Nat → Option Out}
    (ha : a.isSome = true)
    (hk : ∀ o, a = some o → o.err = none → (k o.vis).isSome = true) :
    (bindOut a k).isSome = true := by
  obtain ⟨o, rfl⟩ := Option.isSome_iff_exists.mp ha
  unfold bindOut
  simp only
  split
  · simp
  · rename_i herr
    have := hk o rfl (by simpa using herr)
    match hko : k o.vis with
    | none => rw [hko] at this; simp at this
    | some o₂ => simp [hko]

/-! ## Facts about the hook-call helpers -/

theorem callPreInit_fst (info : SInfo) (path : List String) :
    (callPreInit info path).1 =
      if info.caps.preInitHook then [.preSelf path info.ty] else [] := by
  unfold callPreInit; split <;> rfl

theorem callPreInit_snd (info : SInfo) (path : List String) :
    (callPreInit info path).2 =
      if info.caps.preInitHook then
        info.beh.preInitRes.map fun m => .initError path (ptrTyName info) (.user m)
      else none := by
  unfold callPreInit; split <;> rfl

theorem callPostInit_fst (info : SInfo) (path : List String) :
    (callPostInit info path).1 =
      if info.caps.postInitHook then [.postSelf path info.ty] else [] := by
  unfold callPostInit; split <;> rfl

theorem callPostInit_snd (info : SInfo) (path : List String) :
    (callPostInit info path).2 =
      if info.caps.postInitHook then
        info.beh.postInitRes.map fun m => .initError path (ptrTyName info) (.user m)
      else none := by
  unfold callPostInit; split <;> rfl

theorem callInitIfExists_fst (info : SInfo) (path : List String) :
    (callInitIfExists info path).1 =
      match pickInit info.caps with
      | some k => [.initCall path info.ty k]
      | none => [] := by
  unfold callInitIfExists pickInit
  by_cases h₁ : info.caps.parentInit <;> by_cases h₂ : info.caps.ctxInit <;>
    by_cases h₃ : info.caps.simpleInit <;> simp [h₁, h₂, h₃]

theorem callInitIfExists_snd (info : SInfo) (path : List String) :
    (callInitIfExists info path).2 =
      match pickInit info.caps with
      | some _ =>
        info.beh.initRes.map fun m => .initError path (ptrTyName info) (.user m)
      | none => none := by
  unfold callInitIfExists pickInit
  by_cases h₁ : info.caps.parentInit <;> by_cases h₂ : info.caps.ctxInit <;>
    by_cases h₃ : info.caps.simpleInit <;> simp [h₁, h₂, h₃]

theorem callPreFieldHook_fst (cinfo : SInfo) (p : List String) (n : String) :
    (callPreFieldHook cinfo p n).1 =
      if cinfo.caps.preFieldHook then [.preField p cinfo.ty n] else [] := by
  unfold callPreFieldHook; split <;> rfl

theorem callPreFieldHook_snd (cinfo : SInfo) (p : List String) (n : String) :
    (callPreFieldHook cinfo p n).2 =
      if cinfo.caps.preFieldHook then cinfo.beh.preFieldRes.map .user else none := by
  unfold callPreFieldHook; split <;> rfl

theorem callPostFieldHook_fst (cinfo : SInfo) (p : List String) (n : String) :
    (callPostFieldHook cinfo p n).1 =
      if cinfo.caps.postFieldHook then [.postField p cinfo.ty n] else [] := by
  unfold callPostFieldHook; split <;> rfl

theorem callPostFieldHook_snd (cinfo : SInfo) (p : List String) (n : String) :
    (callPostFieldHook cinfo p n).2 =
      if cinfo.caps.postFieldHook then cinfo.beh.postFieldRes.map .user else none := by
  unfold callPostFieldHook; split <;> rfl

theorem errOK_callPreInit (info : SInfo) (path : List String) :
    errOK (callPreInit info path).2 := by
  rw [callPreInit_snd]
  split
  · match info.beh.preInitRes with
    | none => trivial
    | some m => trivial
  · trivial

theorem errOK_callPostInit (info : SInfo) (path : List String) :
    errOK (callPostInit info path).2 := by
  rw [callPostInit_snd]
  split
  · match info.beh.postInitRes with
    | none => trivial
    | some m => trivial
  · trivial

theorem errOK_callInitIfExists (info : SInfo) (path : List String) :
    errOK (callInitIfExists info path).2 := by
  rw [callInitIfExists_snd]
  split
  · match info.beh.initRes with
    | none => trivial
    | some m => trivial
  · trivial

theorem errOK_callPreFieldHook (cinfo : SInfo) (p : List String) (n : String) :
    errOK (callPreFieldHook cinfo p n).2 := by
  rw [callPreFieldHook_snd]
  split
  · match cinfo.beh.preFieldRes with
    | none => trivial
    | some m => trivial
  · trivial

theorem errOK_callPostFieldHook (cinfo : SInfo) (p : List String) (n : String) :
    errOK (callPostFieldHook cinfo p n).2 := by
  rw [callPostFieldHook_snd]
  split
  · match cinfo.beh.postFieldRes with
    | none => trivial
    | some m => trivial
  · trivial

theorem depthGE_nil (b : Nat) : depthGE b [] := by
  intro ev hev; simp at hev

theorem depthGE_append {b : Nat} {xs ys : List Event} (hx : depthGE b xs)
    (hy : depthGE b ys) : depthGE b (xs ++ ys) := by
  intro ev hev d hd
  rcases List.mem_append.mp hev with hm | hm
  · exact hx ev hm d hd
  · exact hy ev hm d hd

theorem depthGE_mono {b b' : Nat} {evs : List Event} (hb : b' ≤ b)
    (hx : depthGE b evs) : depthGE b' evs := by
  intro ev hev d hd
  exact hb.trans (hx ev hev d hd)

theorem depthGE_of_no_hooks {b : Nat} {evs : List Event}
    (hx : ∀ ev ∈ evs, fieldHookDepth ev = none) : depthGE b evs := by
  intro ev hev d hd
  rw [hx ev hev] at hd
  exact absurd hd (by simp)

theorem noHook_callPreInit {info : SInfo} {path : List String} :
    ∀ ev ∈ (callPreInit info path).1, fieldHookDepth ev = none := by
  rw [callPreInit_fst]
  split <;> intro ev hev <;> simp at hev
  subst hev; rfl

theorem noHook_callPostInit {info : SInfo} {path : List String} :
    ∀ ev ∈ (callPostInit info path).1, fieldHookDepth ev = none := by
  rw [callPostInit_fst]
  split <;> intro ev hev <;> simp at hev
  subst hev; rfl

theorem noHook_callInitIfExists {info : SInfo} {path : List String} :
    ∀ ev ∈ (callInitIfExists info path).1, fieldHookDepth ev = none := by
  rw [callInitIfExists_fst]
  split
  · intro ev hev; simp at hev; subst hev; rfl
  · intro ev hev; simp at hev

theorem mem_callPreFieldHook {cinfo : SInfo} {p : List String} {n : String} :
    ∀ ev ∈ (callPreFieldHook cinfo p n).1, ev = .preField p cinfo.ty n := by
  rw [callPreFieldHook_fst]
  split <;> intro ev hev <;> simp at hev
  exact hev

theorem mem_callPostFieldHook {cinfo : SInfo} {p : List String} {n : String} :
    ∀ ev ∈ (callPostFieldHook cinfo p n).1, ev = .postField p cinfo.ty n := by
  rw [callPostFieldHook_fst]
  split <;> intro ev hev <;> simp at hev
  exact hev

theorem depthGE_callPreFieldHook {cinfo : SInfo} {p : List String} {n : String} :
    depthGE p.length (callPreFieldHook cinfo p n).1 := by
  intro ev hev d hd
  rw [mem_callPreFieldHook ev hev] at hd
  simp [fieldHookDepth] at hd
  omega

theorem depthGE_callPostFieldHook {cinfo : SInfo} {p : List String} {n : String} :
    depthGE p.length (callPostFieldHook cinfo p n).1 := by
  intro ev hev d hd
  rw [mem_callPostFieldHook ev hev] at hd
  simp [fieldHookDepth] at hd
  omega

theorem hookAt_none_of_depthGE {p : List String} {evs : List Event}
    (hx : depthGE (p.length + 1) evs) : ∀ ev ∈ evs, hookAt p ev = none := by
  intro ev hev
  match ev with
  | .preSelf _ _ => rfl
  | .postSelf _ _ => rfl
  | .initCall _ _ _ => rfl
  | .preField q ty n =>
    have := hx _ hev q.length rfl
    simp only [hookAt]
    split
    · rename_i hq
      subst hq
      omega
    · rfl
  | .postField q ty n =>
    have := hx _ hev q.length rfl
    simp only [hookAt]
    split
    · rename_i hq
      subst hq
      omega
    · rfl

/-- The combined structural invariant of a traversal result: the visited
list only grows; every error is a raw user error or a once-wrapped
`InitError`; field-hook events sit at or below the item's own depth; and
the field hooks emitted at an `ifields` item's own path use declared field
names of that field list. -/
def RunInv (vis : List Nat) (it : Item) (out : Out) : Prop :=
  vis <:+ out.vis ∧ errOK out.err ∧ depthGE (itemDepth it) out.events ∧
  (∀ cinfo fs path, it = .ifields cinfo fs path →
    ∀ ev ∈ out.events, ∀ n, hookAt path ev = some n → n ∈ fieldNames fs)

theorem hookStep_inv3 {he : List Event × Option Err} {vis : List Nat} {b : Nat}
    {k : Unit → Option Out} {out : Out}
    (e₁ : errOK he.2) (d₁ : depthGE b he.1)
    (hk : ∀ o, k () = some o → vis <:+ o.vis ∧ errOK o.err ∧ depthGE b o.events)
    (h : hookStep he vis k = some out) :
    vis <:+ out.vis ∧ errOK out.err ∧ depthGE b out.events := by
  rcases hookStep_eq_some h with ⟨e, he2, rfl⟩ | ⟨he2, o, ho, rfl⟩
  · refine ⟨List.suffix_refl _, ?_, d₁⟩
    rw [he2] at e₁
    exact e₁
  · obtain ⟨hs, heo, hd⟩ := hk o ho
    exact ⟨hs, heo, depthGE_append d₁ hd⟩

theorem bindOut_inv3 {sub : Option Out} {k : List Nat → Option Out} {vis : List Nat}
    {b : Nat} {out : Out}
    (hsub : ∀ o, sub = some o → vis <:+ o.vis ∧ errOK o.err ∧ depthGE b o.events)
    (hk : ∀ v o, k v = some o → v <:+ o.vis ∧ errOK o.err ∧ depthGE b o.events)
    (h : bindOut sub k = some out) :
    vis <:+ out.vis ∧ errOK out.err ∧ depthGE b out.events := by
  rcases bindOut_eq_some h with ⟨o, ho, herr, rfl⟩ | ⟨o, o₂, ho, herr, hko, rfl⟩
  · exact hsub _ ho
  · obtain ⟨hs₁, he₁x, hd₁⟩ := hsub _ ho
    obtain ⟨hs₂, he₂x, hd₂⟩ := hk _ _ hko
    exact ⟨hs₁.trans hs₂, he₂x, depthGE_append hd₁ hd₂⟩

theorem RunInv_pure (vis : List Nat) (it : Item) : RunInv vis it ⟨[], none, vis⟩ :=
  ⟨List.suffix_refl _, trivial, depthGE_nil _, fun _ _ _ _ ev hev => by simp at hev⟩

theorem RunInv_pureCons (a : Nat) (vis : List Nat) (it : Item) :
    RunInv vis it ⟨[], none, a :: vis⟩ :=
  ⟨List.suffix_cons a vis, trivial, depthGE_nil _, fun _ _ _ _ ev hev => by simp at hev⟩

theorem RunInv_skipField {cinfo : SInfo} {m : FieldMeta} {fv : Val}
    {rest : List (FieldMeta × Val)} {path : List String} {vis : List Nat} {out : Out}
    (h : RunInv vis (.ifields cinfo rest path) out) :
    RunInv vis (.ifields cinfo ((m, fv) :: rest) path) out := by
  obtain ⟨hs, he, hd, hn⟩ := h
  refine ⟨hs, he, hd, ?_⟩
  intro c f p heq ev hev x hx
  injection heq with h1 h2 h3
  subst h1; subst h2; subst h3
  have := hn cinfo rest path rfl ev hev x hx
  simp only [fieldNames, List.map_cons]
  exact List.mem_cons_of_mem _ this

theorem names_callPreFieldHook {cinfo : SInfo} {p : List String} {nm : String} :
    ∀ ev ∈ (callPreFieldHook cinfo p nm).1, ∀ x, hookAt p ev = some x → x = nm := by
  intro ev hev x hx
  rw [mem_callPreFieldHook ev hev] at hx
  simp [hookAt] at hx
  exact hx.symm

theorem names_callPostFieldHook {cinfo : SInfo} {p : List String} {nm : String} :
    ∀ ev ∈ (callPostFieldHook cinfo p nm).1, ∀ x, hookAt p ev = some x → x = nm := by
  intro ev hev x hx
  rw [mem_callPostFieldHook ev hev] at hx
  simp [hookAt] at hx
  exact hx.symm

theorem errOK_condPre (c : Bool) (cinfo : SInfo) (p : List String) (nm : String) :
    errOK (if c then callPreFieldHook cinfo p nm else ([], none)).2 := by
  cases c
  · trivial
  · exact errOK_callPreFieldHook cinfo p nm

theorem errOK_condPost (c : Bool) (cinfo : SInfo) (p : List String) (nm : String) :
    errOK (if c then callPostFieldHook cinfo p nm else ([], none)).2 := by
  cases c
  · trivial
  · exact errOK_callPostFieldHook cinfo p nm

theorem depthGE_condPre (c : Bool) (cinfo : SInfo) (p : List String) (nm : String) :
    depthGE p.length (if c then callPreFieldHook cinfo p nm else ([], none)).1 := by
  cases c
  · exact depthGE_nil _
  · exact depthGE_callPreFieldHook

theorem depthGE_condPost (c : Bool) (cinfo : SInfo) (p : List String) (nm : String) :
    depthGE p.length (if c then callPostFieldHook cinfo p nm else ([], none)).1 := by
  cases c
  · exact depthGE_nil _
  · exact depthGE_callPostFieldHook

theorem names_condPre (c : Bool) (cinfo : SInfo) (p : List String) (nm : String) :
    ∀ ev ∈ (if c then callPreFieldHook cinfo p nm else ([], none)).1,
      ∀ x, hookAt p ev = some x → x = nm := by
  cases c
  · intro ev hev; simp at hev
  · exact names_callPreFieldHook

theorem names_condPost (c : Bool) (cinfo : SInfo) (p : List String) (nm : String) :
    ∀ ev ∈ (if c then callPostFieldHook cinfo p nm else ([], none)).1,
      ∀ x, hookAt p ev = some x → x = nm := by
  cases c
  · intro ev hev; simp at hev
  · exact names_callPostFieldHook

theorem RunInv_fieldBlock {cinfo : SInfo} {m : FieldMeta} {fv : Val}
    {rest : List (FieldMeta × Val)} {path : List String} {vis : List Nat}
    {he₁ he₂ : List Event × Option Err} {sub : Option Out}
    {restRun : List Nat → Option Out} {out : Out}
    (e₁ : errOK he₁.2) (e₂ : errOK he₂.2)
    (d₁ : depthGE path.length he₁.1) (d₂ : depthGE path.length he₂.1)
    (n₁ : ∀ ev ∈ he₁.1, ∀ x, hookAt path ev = some x → x = m.name)
    (n₂ : ∀ ev ∈ he₂.1, ∀ x, hookAt path ev = some x → x = m.name)
    (hsub : ∀ o, sub = some o →
      vis <:+ o.vis ∧ errOK o.err ∧ depthGE (path.length + 1) o.events)
    (hrest : ∀ v o, restRun v = some o → RunInv v (.ifields cinfo rest path) o)
    (hr : hookStep he₁ vis (fun _ =>
      bindOut sub fun vis₁ =>
        hookStep he₂ vis₁ fun _ => restRun vis₁) = some out) :
    RunInv vis (.ifields cinfo ((m, fv) :: rest) path) out := by
  have subNoAt : ∀ o, sub = some o → ∀ ev ∈ o.events, hookAt path ev = none := by
    intro o ho
    exact hookAt_none_of_depthGE (hsub _ ho).2.2
  have headName : ∀ x, x = m.name → x ∈ fieldNames ((m, fv) :: rest) := by
    intro x hx
    simp only [fieldNames, List.map_cons]
    exact hx ▸ List.mem_cons_self _ _
  have restName : ∀ v o, restRun v = some o →
      ∀ ev ∈ o.events, ∀ x, hookAt path ev = some x →
        x ∈ fieldNames ((m, fv) :: rest) := by
    intro v o ho ev hev x hx
    have := (hrest v o ho).2.2.2 cinfo rest path rfl ev hev x hx
    simp only [fieldNames, List.map_cons]
    exact List.mem_cons_of_mem _ this
  rcases hookStep_eq_some hr with ⟨e, he2, rfl⟩ | ⟨he2, o₁, ho₁, rfl⟩
  · refine ⟨List.suffix_refl _, ?_, d₁, ?_⟩
    · rw [he2] at e₁
      exact e₁
    · intro c f p heq ev hev x hx
      injection heq with h1 h2 h3
      subst h1; subst h2; subst h3
      exact headName x (n₁ ev hev x hx)
  · rcases bindOut_eq_some ho₁ with ⟨o, ho, herr, rfl⟩ | ⟨o, o₂, ho, herr, hko, rfl⟩
    · obtain ⟨hs, heo, hd⟩ := hsub _ ho
      refine ⟨hs, heo, depthGE_append d₁ (depthGE_mono (Nat.le_succ _) hd), ?_⟩
      intro c f p heq ev hev x hx
      injection heq with h1 h2 h3
      subst h1; subst h2; subst h3
      rcases List.mem_append.mp hev with hm | hm
      · exact headName x (n₁ ev hm x hx)
      · rw [subNoAt _ ho ev hm] at hx
        exact absurd hx (by simp)
    · rcases hookStep_eq_some hko with ⟨e, he2x, rfl⟩ | ⟨he2x, o₃, ho₃, rfl⟩
      · obtain ⟨hs, heo, hd⟩ := hsub _ ho
        refine ⟨hs, ?_, ?_, ?_⟩
        · rw [he2x] at e₂
          exact e₂
        · exact depthGE_append d₁
            (depthGE_append (depthGE_mono (Nat.le_succ _) hd) d₂)
        · intro c f p heq ev hev x hx
          injection heq with h1 h2 h3
          subst h1; subst h2; subst h3
          rcases List.mem_append.mp hev with hm | hm
          · exact headName x (n₁ ev hm x hx)
          rcases List.mem_append.mp hm with hm₂ | hm₂
          · rw [subNoAt _ ho ev hm₂] at hx
            exact absurd hx (by simp)
          · exact headName x (n₂ ev hm₂ x hx)
      · obtain ⟨hs, heo, hd⟩ := hsub _ ho
        obtain ⟨hs₃, heo₃, hd₃, _⟩ := hrest _ _ ho₃
        refine ⟨hs.trans hs₃, heo₃, ?_, ?_⟩
        · exact depthGE_append d₁ (depthGE_append (depthGE_mono (Nat.le_succ _) hd)
            (depthGE_append d₂ hd₃))
        · intro c f p heq ev hev x hx
          injection heq with h1 h2 h3
          subst h1; subst h2; subst h3
          rcases List.mem_append.mp hev with hm | hm
          · exact headName x (n₁ ev hm x hx)
          rcases List.mem_append.mp hm with hm₂ | hm₂
          · rw [subNoAt _ ho ev hm₂] at hx
            exact absurd hx (by simp)
          rcases List.mem_append.mp hm₂ with hm₃ | hm₃
          · exact headName x (n₂ ev hm₃ x hx)
          · exact restName _ _ ho₃ ev hm₃ x hx

/-- The structural invariant holds for every successful traversal. -/
theorem run_inv (h : Heap) (o : Options) :
    ∀ fuel vis it out, run h o fuel vis it = some out → RunInv vis it out := by
  intro fuel
  induction fuel with
  | zero => intro vis it out hr; simp [run] at hr
  | succ n ih =>
    intro vis it out hr
    match it with
    | .ival v path =>
      match v with
      | .ptrV none =>
        simp only [run, Option.some.injEq] at hr
        exact hr ▸ RunInv_pure vis _
      | .ptrV (some a) =>
        simp only [run] at hr
        split at hr
        · simp only [Option.some.injEq] at hr
          exact hr ▸ RunInv_pure vis _
        · split at hr
          · obtain ⟨hs, he, hd, _⟩ := ih _ _ _ hr
            exact ⟨(List.suffix_cons a vis).trans hs, he, hd,
              fun c f p heq => Item.noConfusion heq⟩
          · simp only [Option.some.injEq] at hr
            exact hr ▸ RunInv_pureCons a vis _
      | .structV info fs =>
        simp only [run] at hr
        obtain ⟨hs, he, hd, _⟩ := ih _ _ _ hr
        exact ⟨hs, he, hd, fun c f p heq => Item.noConfusion heq⟩
      | .ifaceV w =>
        simp only [run, Option.some.injEq] at hr
        exact hr ▸ RunInv_pure vis _
      | .sliceV et es =>
        simp only [run, Option.some.injEq] at hr
        exact hr ▸ RunInv_pure vis _
      | .mapV et ents =>
        simp only [run, Option.some.injEq] at hr
        exact hr ▸ RunInv_pure vis _
      | .otherV =>
        simp only [run, Option.some.injEq] at hr
        exact hr ▸ RunInv_pure vis _
    | .ibody info fs path =>
      simp only [run] at hr
      have h3 : vis <:+ out.vis ∧ errOK out.err ∧ depthGE path.length out.events := by
        refine hookStep_inv3 (errOK_callPreInit info path)
          (depthGE_of_no_hooks noHook_callPreInit) ?_ hr
        intro o₁ ho₁
        refine bindOut_inv3 ?_ ?_ ho₁
        · intro o₂ ho₂
          obtain ⟨hs, he, hd, _⟩ := ih _ _ _ ho₂
          exact ⟨hs, he, hd⟩
        · intro v o₂ ho₂
          refine hookStep_inv3 (errOK_callInitIfExists info path)
            (depthGE_of_no_hooks noHook_callInitIfExists) ?_ ho₂
          intro o₃ ho₃
          refine hookStep_inv3 (errOK_callPostInit info path)
            (depthGE_of_no_hooks noHook_callPostInit) ?_ ho₃
          intro o₄ ho₄
          simp only [Option.some.injEq] at ho₄
          exact ho₄ ▸ ⟨List.suffix_refl v, trivial, depthGE_nil _⟩
      exact ⟨h3.1, h3.2.1, h3.2.2, fun c f p heq => Item.noConfusion heq⟩
    | .ifields cinfo fs path =>
      match fs with
      | [] =>
        simp only [run, Option.some.injEq] at hr
        exact hr ▸ RunInv_pure vis _
      | (m, fv) :: rest =>
        match fv with
        | .structV info fs' =>
          simp only [run] at hr
          split at hr
          · exact RunInv_skipField (ih _ _ _ hr)
          split at hr
          · exact RunInv_skipField (ih _ _ _ hr)
          split at hr
          · exact RunInv_skipField (ih _ _ _ hr)
          refine RunInv_fieldBlock (errOK_callPreFieldHook _ _ _)
            (errOK_callPostFieldHook _ _ _) depthGE_callPreFieldHook
            depthGE_callPostFieldHook names_callPreFieldHook
            names_callPostFieldHook ?_ (fun v oo hoo => ih _ _ _ hoo) hr
          intro oo hoo
          obtain ⟨hs, he, hd, _⟩ := ih _ _ _ hoo
          refine ⟨hs, he, ?_⟩
          simpa [itemDepth] using hd
        | .ptrV (some a) =>
          simp only [run] at hr
          split at hr
          · exact RunInv_skipField (ih _ _ _ hr)
          split at hr
          · exact RunInv_skipField (ih _ _ _ hr)
          split at hr
          · exact RunInv_skipField (ih _ _ _ hr)
          split at hr
          · refine RunInv_fieldBlock (errOK_callPreFieldHook _ _ _)
              (errOK_callPostFieldHook _ _ _) depthGE_callPreFieldHook
              depthGE_callPostFieldHook names_callPreFieldHook
              names_callPostFieldHook ?_ (fun v oo hoo => ih _ _ _ hoo) hr
            intro oo hoo
            obtain ⟨hs, he, hd, _⟩ := ih _ _ _ hoo
            refine ⟨hs, he, ?_⟩
            simpa [itemDepth] using hd
          · exact RunInv_skipField (ih _ _ _ hr)
        | .ptrV none =>
          simp only [run] at hr
          split at hr
          · exact RunInv_skipField (ih _ _ _ hr)
          split at hr
          · exact RunInv_skipField (ih _ _ _ hr)
          split at hr
          · exact RunInv_skipField (ih _ _ _ hr)
          exact RunInv_skipField (ih _ _ _ hr)
        | .sliceV et es =>
          simp only [run] at hr
          split at hr
          · exact RunInv_skipField (ih _ _ _ hr)
          split at hr
          · exact RunInv_skipField (ih _ _ _ hr)
          split at hr
          · exact RunInv_skipField (ih _ _ _ hr)
          refine RunInv_fieldBlock (errOK_condPre _ _ _ _)
            (errOK_condPost _ _ _ _) (depthGE_condPre _ _ _ _)
            (depthGE_condPost _ _ _ _) (names_condPre _ _ _ _)
            (names_condPost _ _ _ _) ?_ (fun v oo hoo => ih _ _ _ hoo) hr
          intro oo hoo
          obtain ⟨hs, he, hd, _⟩ := ih _ _ _ hoo
          refine ⟨hs, he, ?_⟩
          refine depthGE_mono ?_ hd
          simp [itemDepth]
        | .mapV et ents =>
          simp only [run] at hr
          split at hr
          · exact RunInv_skipField (ih _ _ _ hr)
          split at hr
          · exact RunInv_skipField (ih _ _ _ hr)
          split at hr
          · exact RunInv_skipField (ih _ _ _ hr)
          refine RunInv_fieldBlock (errOK_condPre _ _ _ _)
            (errOK_condPost _ _ _ _) (depthGE_condPre _ _ _ _)
            (depthGE_condPost _ _ _ _) (names_condPre _ _ _ _)
            (names_condPost _ _ _ _) ?_ (fun v oo hoo => ih _ _ _ hoo) hr
          intro oo hoo
          obtain ⟨hs, he, hd, _⟩ := ih _ _ _ hoo
          refine ⟨hs, he, ?_⟩
          refine depthGE_mono ?_ hd
          simp [itemDepth]
        | .ifaceV w =>
          simp only [run] at hr
          split at hr
          · exact RunInv_skipField (ih _ _ _ hr)
          split at hr
          · exact RunInv_skipField (ih _ _ _ hr)
          split at hr
          · exact RunInv_skipField (ih _ _ _ hr)
          exact RunInv_skipField (ih _ _ _ hr)
        | .otherV =>
          simp only [run] at hr
          split at hr
          · exact RunInv_skipField (ih _ _ _ hr)
          split at hr
          · exact RunInv_skipField (ih _ _ _ hr)
          split at hr
          · exact RunInv_skipField (ih _ _ _ hr)
          exact RunInv_skipField (ih _ _ _ hr)
    | .ielems es fp idx =>
      match es with
      | [] =>
        simp only [run, Option.some.injEq] at hr
        exact hr ▸ RunInv_pure vis _
      | e :: restEs =>
        simp only [run] at hr
        have h3 : vis <:+ out.vis ∧ errOK out.err ∧ depthGE (fp.length + 1) out.events := by
          refine bindOut_inv3 ?_ ?_ hr
          · intro oo hoo
            obtain ⟨hs, he, hd, _⟩ := ih _ _ _ hoo
            refine ⟨hs, he, ?_⟩
            simpa [itemDepth] using hd
          · intro v oo hoo
            obtain ⟨hs, he, hd, _⟩ := ih _ _ _ hoo
            exact ⟨hs, he, hd⟩
        exact ⟨h3.1, h3.2.1, h3.2.2, fun c f p heq => Item.noConfusion heq⟩
    | .ientries ents fp =>
      match ents with
      | [] =>
        simp only [run, Option.some.injEq] at hr
        exact hr ▸ RunInv_pure vis _
      | (key, entryV) :: restEnts =>
        match entryV with
        | .structV info fs' =>
          simp only [run] at hr
          have h3 : vis <:+ out.vis ∧ errOK out.err ∧
              depthGE (fp.length + 1) out.events := by
            refine bindOut_inv3 ?_ ?_ hr
            · intro oo hoo
              obtain ⟨hs, he, hd, _⟩ := ih _ _ _ hoo
              refine ⟨hs, he, ?_⟩
              simpa [itemDepth] using hd
            · intro v oo hoo
              obtain ⟨hs, he, hd, _⟩ := ih _ _ _ hoo
              exact ⟨hs, he, hd⟩
          exact ⟨h3.1, h3.2.1, h3.2.2, fun c f p heq => Item.noConfusion heq⟩
        | .ptrV (some a) =>
          simp only [run] at hr
          have h3 : vis <:+ out.vis ∧ errOK out.err ∧
              depthGE (fp.length + 1) out.events := by
            refine bindOut_inv3 ?_ ?_ hr
            · intro oo hoo
              obtain ⟨hs, he, hd, _⟩ := ih _ _ _ hoo
              refine ⟨hs, he, ?_⟩
              simpa [itemDepth] using hd
            · intro v oo hoo
              obtain ⟨hs, he, hd, _⟩ := ih _ _ _ hoo
              exact ⟨hs, he, hd⟩
          exact ⟨h3.1, h3.2.1, h3.2.2, fun c f p heq => Item.noConfusion heq⟩
        | .ptrV none =>
          simp only [run] at hr
          obtain ⟨hs, he, hd, _⟩ := ih _ _ _ hr
          exact ⟨hs, he, hd, fun c f p heq => Item.noConfusion heq⟩
        | .ifaceV w =>
          simp only [run] at hr
          obtain ⟨hs, he, hd, _⟩ := ih _ _ _ hr
          exact ⟨hs, he, hd, fun c f p heq => Item.noConfusion heq⟩
        | .sliceV et2 es2 =>
          simp only [run] at hr
          obtain ⟨hs, he, hd, _⟩ := ih _ _ _ hr
          exact ⟨hs, he, hd, fun c f p heq => Item.noConfusion heq⟩
        | .mapV et2 ents2 =>
          simp only [run] at hr
          obtain ⟨hs, he, hd, _⟩ := ih _ _ _ hr
          exact ⟨hs, he, hd, fun c f p heq => Item.noConfusion heq⟩
        | .otherV =>
          simp only [run] at hr
          obtain ⟨hs, he, hd, _⟩ := ih _ _ _ hr
          exact ⟨hs, he, hd, fun c f p heq => Item.noConfusion heq⟩

theorem run_vis_suffix {h : Heap} {o : Options} {fuel : Nat} {vis : List Nat}
    {it : Item} {out : Out} (hr : run h o fuel vis it = some out) :
    vis <:+ out.vis :=
  (run_inv h o fuel vis it out hr).1

theorem wVal_pos (v : Val) : 1 ≤ wVal v := by
  match v with
  | .structV _ _ => simp only [wVal]; omega
  | .ptrV _ => simp [wVal]
  | .ifaceV _ => simp [wVal]
  | .sliceV _ _ => simp [wVal]
  | .mapV _ _ => simp [wVal]
  | .otherV => simp [wVal]

theorem heapB_le (h : Heap) {vis vis' : List Nat}
    (hsub : ∀ x ∈ vis, x ∈ vis') : heapB h vis' ≤ heapB h vis := by
  induction h with
  | nil => simp [heapB]
  | cons e t ih =>
    simp only [heapB]
    by_cases hv : e.1 ∈ vis
    · rw [if_pos hv, if_pos (hsub _ hv)]
      omega
    · rw [if_neg hv]
      by_cases hv' : e.1 ∈ vis'
      · rw [if_pos hv']
        omega
      · rw [if_neg hv']
        omega

theorem heapB_deref (h : Heap) {a : Nat} {v : Val} {vis : List Nat}
    (hl : lookupHeap h a = some v) (hnv : a ∉ vis) :
    heapB h (a :: vis) + 2 + wVal v ≤ heapB h vis := by
  induction h with
  | nil => simp [lookupHeap] at hl
  | cons e t ih =>
    match e with
    | (b, w) =>
      simp only [lookupHeap] at hl
      by_cases hba : b = a
      · rw [if_pos hba] at hl
        simp only [Option.some.injEq] at hl
        subst hl
        subst hba
        simp only [heapB]
        rw [if_pos (List.mem_cons_self _ _), if_neg hnv]
        have hle : heapB t (b :: vis) ≤ heapB t vis :=
          heapB_le t fun x hx => List.mem_cons_of_mem _ hx
        omega
      · rw [if_neg hba] at hl
        have := ih hl
        simp only [heapB]
        by_cases hbv : b ∈ vis
        · rw [if_pos hbv, if_pos (List.mem_cons_of_mem _ hbv)]
          omega
        · rw [if_neg hbv, if_neg (by simp [hba, hbv])]
          omega

/-- With fuel exceeding the item weight plus the unvisited-heap budget, the
traversal never runs out of fuel. -/
theorem run_enough (h : Heap) (o : Options) :
    ∀ fuel vis it, wItem it + heapB h vis < fuel →
      (run h o fuel vis it).isSome = true := by
  intro fuel
  induction fuel with
  | zero => intro vis it hw; omega
  | succ n ih =>
    intro vis it hw
    match it with
    | .ival v path =>
      match v with
      | .ptrV none => simp [run]
      | .ptrV (some a) =>
        simp only [run]
        split
        · simp
        · rename_i hmem
          match hl : lookupHeap h a with
          | some (.structV info fs) =>
            simp only [hl]
            apply ih
            have hd := heapB_deref h hl (by simpa using hmem)
            simp only [wItem, wVal] at hw hd ⊢
            omega
          | some (.ptrV x) => simp [hl]
          | some (.ifaceV x) => simp [hl]
          | some (.sliceV x y) => simp [hl]
          | some (.mapV x y) => simp [hl]
          | some .otherV => simp [hl]
          | none => simp [hl]
      | .structV info fs =>
        simp only [run]
        apply ih
        simp only [wItem, wVal] at hw ⊢
        omega
      | .ifaceV w => simp [run]
      | .sliceV et es => simp [run]
      | .mapV et ents => simp [run]
      | .otherV => simp [run]
    | .ibody info fs path =>
      simp only [run]
      apply hookStep_isSome
      intro _
      apply bindOut_isSome
      · apply ih
        simp only [wItem] at hw ⊢
        omega
      · intro o₂ ho₂ herr
        apply hookStep_isSome
        intro _
        apply hookStep_isSome
        intro _
        simp
    | .ifields cinfo fs path =>
      match fs with
      | [] => simp [run]
      | (m, fv) :: rest =>
        have hrest : ∀ vis', (∀ x ∈ vis, x ∈ vis') →
            (run h o n vis' (.ifields cinfo rest path)).isSome = true := by
          intro vis' hsub
          apply ih
          have := @heapB_le h vis vis' hsub
          have hpos := wVal_pos fv
          simp only [wItem, wFieldList] at hw ⊢
          omega
        match fv with
        | .structV info fs' =>
          simp only [run]
          split
          · exact hrest vis fun x hx => hx
          split
          · exact hrest vis fun x hx => hx
          split
          · exact hrest vis fun x hx => hx
          apply hookStep_isSome
          intro _
          apply bindOut_isSome
          · apply ih
            simp only [wItem, wFieldList, wVal] at hw ⊢
            omega
          · intro o₂ ho₂ herr
            apply hookStep_isSome
            intro _
            exact hrest o₂.vis (run_vis_suffix ho₂).subset
        | .ptrV pa =>
          simp only [run]
          split
          · exact hrest vis fun x hx => hx
          split
          · exact hrest vis fun x hx => hx
          split
          · exact hrest vis fun x hx => hx
          match pa with
          | some a =>
            simp only []
            split
            · apply hookStep_isSome
              intro _
              apply bindOut_isSome
              · apply ih
                simp only [wItem, wFieldList, wVal] at hw ⊢
                omega
              · intro o₂ ho₂ herr
                apply hookStep_isSome
                intro _
                exact hrest o₂.vis (run_vis_suffix ho₂).subset
            · exact hrest vis fun x hx => hx
          | none => exact hrest vis fun x hx => hx
        | .sliceV et es =>
          simp only [run]
          split
          · exact hrest vis fun x hx => hx
          split
          · exact hrest vis fun x hx => hx
          split
          · exact hrest vis fun x hx => hx
          apply hookStep_isSome
          intro _
          apply bindOut_isSome
          · apply ih
            simp only [wItem, wFieldList, wVal] at hw ⊢
            omega
          · intro o₂ ho₂ herr
            apply hookStep_isSome
            intro _
            exact hrest o₂.vis (run_vis_suffix ho₂).subset
        | .mapV et ents =>
          simp only [run]
          split
          · exact hrest vis fun x hx => hx
          split
          · exact hrest vis fun x hx => hx
          split
          · exact hrest vis fun x hx => hx
          apply hookStep_isSome
          intro _
          apply bindOut_isSome
          · apply ih
            simp only [wItem, wFieldList, wVal] at hw ⊢
            omega
          · intro o₂ ho₂ herr
            apply hookStep_isSome
            intro _
            exact hrest o₂.vis (run_vis_suffix ho₂).subset
        | .ifaceV w =>
          simp only [run]
          split
          · exact hrest vis fun x hx => hx
          split
          · exact hrest vis fun x hx => hx
          split
          · exact hrest vis fun x hx => hx
          exact hrest vis fun x hx => hx
        | .otherV =>
          simp only [run]
          split
          · exact hrest vis fun x hx => hx
          split
          · exact hrest vis fun x hx => hx
          split
          · exact hrest vis fun x hx => hx
          exact hrest vis fun x hx => hx
    | .ielems es fp idx =>
      match es with
      | [] => simp [run]
      | e :: restEs =>
        simp only [run]
        apply bindOut_isSome
        · apply ih
          simp only [wItem, wValList] at hw ⊢
          omega
        · intro o₂ ho₂ herr
          apply ih
          have := @heapB_le h vis o₂.vis (run_vis_suffix ho₂).subset
          have hpos := wVal_pos e
          simp only [wItem, wValList] at hw ⊢
          omega
    | .ientries ents fp =>
      match ents with
      | [] => simp [run]
      | (key, entryV) :: restEnts =>
        have hrest : ∀ vis', (∀ x ∈ vis, x ∈ vis') →
            (run h o n vis' (.ientries restEnts fp)).isSome = true := by
          intro vis' hsub
          apply ih
          have := @heapB_le h vis vis' hsub
          have hpos := wVal_pos entryV
          simp only [wItem, wEntryList] at hw ⊢
          omega
        match entryV with
        | .structV info fs' =>
          simp only [run]
          apply bindOut_isSome
          · apply ih
            simp only [wItem, wEntryList, wVal] at hw ⊢
            omega
          · intro o₂ ho₂ herr
            exact hrest o₂.vis (run_vis_suffix ho₂).subset
        | .ptrV (some a) =>
          simp only [run]
          apply bindOut_isSome
          · apply ih
            simp only [wItem, wEntryList, wVal] at hw ⊢
            omega
          · intro o₂ ho₂ herr
            exact hrest o₂.vis (run_vis_suffix ho₂).subset
        | .ptrV none =>
          simp only [run]
          exact hrest vis fun x hx => hx
        | .ifaceV w =>
          simp only [run]
          exact hrest vis fun x hx => hx
        | .sliceV et2 es2 =>
          simp only [run]
          exact hrest vis fun x hx => hx
        | .mapV et2 ents2 =>
          simp only [run]
          exact hrest vis fun x hx => hx
        | .otherV =>
          simp only [run]
          exact hrest vis fun x hx => hx

theorem heapB_lookup_le (h : Heap) {a : Nat} {v : Val}
    (hl : lookupHeap h a = some v) : 2 + wVal v ≤ heapB h [] := by
  induction h with
  | nil => simp [lookupHeap] at hl
  | cons e t ih =>
    match e with
    | (b, w) =>
      simp only [lookupHeap] at hl
      by_cases hba : b = a
      · rw [if_pos hba] at hl
        simp only [Option.some.injEq] at hl
        subst hl
        simp only [heapB]
        rw [if_neg (by simp)]
        omega
      · rw [if_neg hba] at hl
        have := ih hl
        simp only [heapB]
        omega

/-- `AutoInitWithOptions` terminates (returns a result) on every heap and
every target, cyclic object graphs included: the default fuel is always
sufficient. -/
theorem autoInit_isSome (h : Heap) (o : Options) (t : Target) :
    (autoInit h o t).isSome = true := by
  unfold autoInit autoInitFuel
  match t with
  | .nilT => simp
  | .byPtr none => simp
  | .byPtr (some a) =>
    match hl : lookupHeap h a with
    | some (.structV info fs) =>
      simp only [hl]
      have hw : wItem (.ibody info fs []) + heapB h [] < fuelBound h (.byPtr (some a)) := by
        have := heapB_lookup_le h hl
        simp only [wItem, wVal, fuelBound] at this ⊢
        omega
      have := run_enough h o (fuelBound h (.byPtr (some a))) [] (.ibody info fs []) hw
      obtain ⟨out, hout⟩ := Option.isSome_iff_exists.mp this
      rw [hout]
      simp
    | some (.ptrV x) => simp [hl]
    | some (.ifaceV x) => simp [hl]
    | some (.sliceV x y) => simp [hl]
    | some (.mapV x y) => simp [hl]
    | some .otherV => simp [hl]
    | none => simp [hl]
  | .byVal v =>
    match v with
    | .structV info fs =>
      simp only []
      have hw : wItem (.ibody info fs []) + heapB h [] <
          fuelBound h (.byVal (.structV info fs)) := by
        simp only [wItem, wVal, fuelBound]
        omega
      have := run_enough h o (fuelBound h (.byVal (.structV info fs))) [] (.ibody info fs []) hw
      obtain ⟨out, hout⟩ := Option.isSome_iff_exists.mp this
      rw [hout]
      simp
    | .ptrV x => simp
    | .ifaceV x => simp
    | .sliceV x y => simp
    | .mapV x y => simp
    | .otherV => simp

/-! ## Lemmas about the finder and the typed lookup -/

/-- On a struct whose fields are all plain (no embedded structs, no
collections), the sibling field loop is exactly a first-match scan in
declaration order. -/
theorem searchFieldList_plain (impls : List (GoTy × String)) :
    ∀ (fields : List (FMeta × FVal)) (fuel : Nat) (ex : Option Nat) (opt : SearchOption),
      (∀ f ∈ fields, plainFField f = true) → fields.length < fuel →
      searchFieldList impls fuel fields ex opt =
        (fields.find? fun f =>
          siblingEligible ex f && matchesOption impls f.1 f.2 opt).map fun f => f.2 := by
  intro fields
  induction fields with
  | nil =>
    intro fuel ex opt hplain hlen
    match fuel, hlen with
    | n + 1, _ => simp [searchFieldList]
  | cons f rest ih =>
    intro fuel ex opt hplain hlen
    match f with
    | (m, fv) =>
      match fuel, hlen with
      | n + 1, hlen =>
        have hplainf := hplain (m, fv) (List.mem_cons_self _ _)
        have hrest := ih n ex opt (fun g hg => hplain g (List.mem_cons_of_mem _ hg))
          (by simp at hlen; omega)
        simp only [plainFField, Bool.and_eq_true, Bool.not_eq_true] at hplainf
        simp only [searchFieldList]
        by_cases h1 : m.exported = true
        · rw [if_neg (by simp [h1])]
          by_cases h2 : isExcluded ex fv = true
          · rw [if_pos (by simp [h2]), hrest,
              List.find?_cons_of_neg _ (by simp [siblingEligible, h2])]
          · rw [if_neg (by simp [h2])]
            by_cases h3 : isNilPtrF fv = true
            · rw [if_pos (by simp [h3]), hrest,
                List.find?_cons_of_neg _ (by simp [siblingEligible, h3])]
            · rw [if_neg (by simp [h3])]
              by_cases h4 : matchesOption impls m fv opt = true
              · rw [if_pos (by simp [h4]),
                  List.find?_cons_of_pos _
                    (by simp [siblingEligible, h1, h2, h3, h4])]
                rfl
              · rw [if_neg (by simp [h4])]
                rw [List.find?_cons_of_neg _ (by simp [siblingEligible, h4])]
                have hanon : m.anonymous = false := by simpa using hplainf.1
                rw [if_neg (by simp [hanon])]
                match fv, hplainf with
                | .fstruct s fs, _ => simpa using hrest
                | .fptr s i pv, _ => simpa using hrest
                | .fother, _ => simpa using hrest
                | .fnilptr s, _ => simpa using hrest
        · rw [if_pos (by simp [h1]), hrest,
            List.find?_cons_of_neg _ (by simp [siblingEligible, h1])]

/-- With at least one filter supplied, the slice/array element scan of
`searchInStruct` never returns an element. -/
theorem asScanElems_filters_nonempty (impls : List (GoTy × String)) :
    ∀ (elems : List FVal) (ex : Option Nat) (ty : GoTy) (filters : List Filter),
      filters ≠ [] → asScanElems impls elems ex ty filters = none := by
  intro elems
  induction elems with
  | nil => intro ex ty filters hne; simp [asScanElems]
  | cons e rest ih =>
    intro ex ty filters hne
    simp only [asScanElems]
    rw [if_neg (fun hcond => hne hcond.2.2)]
    exact ih ex ty filters hne

/-- With at least one filter supplied, the map value scan of
`searchInStruct` never returns a value. -/
theorem asScanMapVals_filters_nonempty (impls : List (GoTy × String)) :
    ∀ (ents : List (String × FVal)) (ex : Option Nat) (ty : GoTy) (filters : List Filter),
      filters ≠ [] → asScanMapVals impls ents ex ty filters = none := by
  intro ents
  induction ents with
  | nil => intro ex ty filters hne; simp [asScanMapVals]
  | cons e rest ih =>
    intro ex ty filters hne
    match e with
    | (k, v) =>
      simp only [asScanMapVals]
      rw [if_neg (fun hcond => hne hcond.2.2)]
      exact ih ex ty filters hne

/-- With no filters, the element scan returns the first non-excluded
element matching the target type. -/
theorem asScanElems_no_filters (impls : List (GoTy × String)) :
    ∀ (elems : List FVal) (ex : Option Nat) (ty : GoTy),
      asScanElems impls elems ex ty [] =
        elems.find? fun e => !isExcluded ex e && matchesTargetType impls e ty := by
  intro elems
  induction elems with
  | nil => intro ex ty; simp [asScanElems]
  | cons e rest ih =>
    intro ex ty
    simp only [asScanElems]
    by_cases h1 : isExcluded ex e = true
    · rw [if_neg (by simp [h1]), List.find?_cons_of_neg _ (by simp [h1])]
      exact ih ex ty
    · by_cases h2 : matchesTargetType impls e ty = true
      · rw [if_pos (by simp [h1, h2]), List.find?_cons_of_pos _ (by simp [h1, h2])]
      · rw [if_neg (by simp [h2]), List.find?_cons_of_neg _ (by simp [h2])]
        exact ih ex ty

/-- Soundness of the direct-field pass of `searchInStruct`: a returned
value comes from a field that matches the target type and satisfies every
supplied filter. -/
theorem firstPassFields_sound (impls : List (GoTy × String)) :
    ∀ (fields : List (FMeta × FVal)) (ex : Option Nat) (ty : GoTy)
      (filters : List Filter) (r : FVal),
      firstPassFields impls fields ex ty filters = some r →
      ∃ mf ∈ fields, mf.2 = r ∧ matchesTargetType impls mf.2 ty = true ∧
        matchesAllFilters mf.1 filters = true := by
  intro fields
  induction fields with
  | nil => intro ex ty filters r hr; simp [firstPassFields] at hr
  | cons f rest ih =>
    intro ex ty filters r hr
    match f with
    | (m, fv) =>
      simp only [firstPassFields] at hr
      split at hr
      · obtain ⟨mf, hmem, hprop⟩ := ih ex ty filters r hr
        exact ⟨mf, List.mem_cons_of_mem _ hmem, hprop⟩
      split at hr
      · obtain ⟨mf, hmem, hprop⟩ := ih ex ty filters r hr
        exact ⟨mf, List.mem_cons_of_mem _ hmem, hprop⟩
      split at hr
      · obtain ⟨mf, hmem, hprop⟩ := ih ex ty filters r hr
        exact ⟨mf, List.mem_cons_of_mem _ hmem, hprop⟩
      split at hr
      · obtain ⟨mf, hmem, hprop⟩ := ih ex ty filters r hr
        exact ⟨mf, List.mem_cons_of_mem _ hmem, hprop⟩
      split at hr
      · obtain ⟨mf, hmem, hprop⟩ := ih ex ty filters r hr
        exact ⟨mf, List.mem_cons_of_mem _ hmem, hprop⟩
      · rename_i hne hex hnil hty hfil
        simp only [Option.some.injEq] at hr
        refine ⟨(m, fv), List.mem_cons_self _ _, hr, ?_, ?_⟩
        · simpa using hty
        · simpa using hfil

/-! ## Counting lemmas for the collection hook claim -/

theorem condPre_count_pre (c : Bool) (cinfo : SInfo) (p : List String) (nm : String) :
    ((if c then callPreFieldHook cinfo p nm else ([], none)).1).count
      (Event.preField p cinfo.ty nm) = if c && cinfo.caps.preFieldHook then 1 else 0 := by
  cases c
  · simp
  · rw [if_pos rfl, callPreFieldHook_fst]
    cases hc : cinfo.caps.preFieldHook <;> simp [hc]

theorem condPre_count_post (c : Bool) (cinfo : SInfo) (p : List String) (nm : String) :
    ((if c then callPreFieldHook cinfo p nm else ([], none)).1).count
      (Event.postField p cinfo.ty nm) = 0 := by
  cases c
  · simp
  · rw [if_pos rfl, callPreFieldHook_fst]
    cases hc : cinfo.caps.preFieldHook <;> simp [hc]

theorem condPost_count_post (c : Bool) (cinfo : SInfo) (p : List String) (nm : String) :
    ((if c then callPostFieldHook cinfo p nm else ([], none)).1).count
      (Event.postField p cinfo.ty nm) = if c && cinfo.caps.postFieldHook then 1 else 0 := by
  cases c
  · simp
  · rw [if_pos rfl, callPostFieldHook_fst]
    cases hc : cinfo.caps.postFieldHook <;> simp [hc]

theorem condPost_count_pre (c : Bool) (cinfo : SInfo) (p : List String) (nm : String) :
    ((if c then callPostFieldHook cinfo p nm else ([], none)).1).count
      (Event.preField p cinfo.ty nm) = 0 := by
  cases c
  · simp
  · rw [if_pos rfl, callPostFieldHook_fst]
    cases hc : cinfo.caps.postFieldHook <;> simp [hc]

theorem not_mem_of_depthGE_succ {path : List String} {ty nm : String}
    {evs : List Event} (hd : depthGE (path.length + 1) evs) :
    Event.preField path ty nm ∉ evs ∧ Event.postField path ty nm ∉ evs := by
  constructor <;> intro hmem
  · have := hd _ hmem path.length rfl
    omega
  · have := hd _ hmem path.length rfl
    omega

/-- Count of this field's pre-field and post-field hook events across the
whole field-with-collection block: the hook-pair events contribute their
own counts, the element traversal contributes none (its field hooks are
strictly deeper), and the remaining sibling fields contribute none (their
hooks carry different field names). -/
theorem fieldBlock_counts {cinfo : SInfo} {mname : String}
    {rest : List (FieldMeta × Val)} {path : List String} {vis : List Nat}
    {out : Out} {he₁ he₂ : List Event × Option Err} {sub : Option Out}
    {restRun : List Nat → Option Out} {a b : Nat}
    (h₁ : he₁.1.count (.preField path cinfo.ty mname) = a)
    (h₁p : he₁.1.count (.postField path cinfo.ty mname) = 0)
    (h₂ : he₂.1.count (.postField path cinfo.ty mname) = b)
    (h₂p : he₂.1.count (.preField path cinfo.ty mname) = 0)
    (hsub : ∀ o, sub = some o → depthGE (path.length + 1) o.events)
    (hrest : ∀ v o, restRun v = some o → RunInv v (.ifields cinfo rest path) o)
    (hname : mname ∉ fieldNames rest)
    (hr : hookStep he₁ vis (fun _ =>
      bindOut sub fun vis₁ =>
        hookStep he₂ vis₁ fun _ => restRun vis₁) = some out) :
    out.events.count (.preField path cinfo.ty mname) = a ∧
    (out.err = none → out.events.count (.postField path cinfo.ty mname) = b) := by
  rcases hookStep_eq_some hr with ⟨e, he2, rfl⟩ | ⟨he2, o₁, ho₁, rfl⟩
  · refine ⟨h₁, ?_⟩
    intro hnone
    simp at hnone
  · rcases bindOut_eq_some ho₁ with ⟨o, ho, herr, rfl⟩ | ⟨o, o₂, ho, herr, hko, rfl⟩
    · have hnm := @not_mem_of_depthGE_succ path cinfo.ty mname _ (hsub _ ho)
      refine ⟨?_, ?_⟩
      · simp only [List.count_append, h₁, List.count_eq_zero.mpr hnm.1]
        omega
      · intro hnone
        simp only [Out.err] at hnone
        rw [hnone] at herr
        simp at herr
    · have hnm := @not_mem_of_depthGE_succ path cinfo.ty mname _ (hsub _ ho)
      rcases hookStep_eq_some hko with ⟨e₂, he2x, rfl⟩ | ⟨he2x, o₃, ho₃, rfl⟩
      · refine ⟨?_, ?_⟩
        · simp only [List.count_append, h₁, List.count_eq_zero.mpr hnm.1, h₂p]
          omega
        · intro hnone
          simp at hnone
      · have hrest4 := (hrest _ _ ho₃).2.2.2 cinfo rest path rfl
        have hpreR : (Event.preField path cinfo.ty mname) ∉ o₃.events := by
          intro hmem
          exact hname (hrest4 _ hmem mname (by simp [hookAt]))
        have hpostR : (Event.postField path cinfo.ty mname) ∉ o₃.events := by
          intro hmem
          exact hname (hrest4 _ hmem mname (by simp [hookAt]))
        refine ⟨?_, fun _ => ?_⟩
        · simp only [List.count_append, h₁, List.count_eq_zero.mpr hnm.1, h₂p,
            List.count_eq_zero.mpr hpreR]
          omega
        · simp only [List.count_append, h₁p, List.count_eq_zero.mpr hnm.2, h₂,
            List.count_eq_zero.mpr hpostR]
          omega

/-! ## Claim theorems -/

/-- C1: for every object graph containing a pointer cycle (a direct
self-reference or a longer cycle), AutoInit terminates instead of recursing
forever — the default fuel is provably sufficient for *every* heap, cyclic
ones included, so `autoInit` always returns a result — and when a struct is
reached through a pointer whose identity is already in the per-call visited
set, that struct is skipped entirely: no events are emitted (so no hooks
fire and no initializer is invoked), no error is returned, and the visited
set is unchanged. -/
theorem c1_cycle_termination_and_visited_skip :
    (∀ (h : Heap) (o : Options) (t : Target), (autoInit h o t).isSome = true) ∧
    (∀ (h : Heap) (o : Options) (fuel : Nat) (vis : List Nat) (a : Nat)
      (path : List String), a ∈ vis →
      run h o (fuel + 1) vis (.ival (.ptrV (some a)) path) = some ⟨[], none, vis⟩) := by
  constructor
  · exact autoInit_isSome
  · intro h o fuel vis a path hmem
    simp [run, hmem]

/-- Witness for C1: the self-referential `Node` of
`TestSelfReferentialCycle` terminates, and the revisited pointer is skipped
with no events, no error and an unchanged visited set. -/
theorem c1_witness :
    (autoInit selfHeap ⟨false⟩ (.byPtr (some 0))).isSome = true ∧
    run selfHeap ⟨false⟩ 5 [0] (.ival (.ptrV (some 0)) []) = some ⟨[], none, [0]⟩ :=
  ⟨c1_cycle_termination_and_visited_skip.1 selfHeap ⟨false⟩ (.byPtr (some 0)),
   c1_cycle_termination_and_visited_skip.2 selfHeap ⟨false⟩ 4 [0] 0 [] (by decide)⟩

/-- C2: the initializer dispatcher `callInitIfExists` invokes exactly the
highest-priority implemented variant — `Init(ctx, parent)` over `Init(ctx)`
over `Init()` — and never a lower-priority one (the event trace is the
singleton of the selected variant); a struct implementing none of the three
is silently skipped: no event and no error. -/
theorem c2_initializer_priority (info : SInfo) (path : List String) :
    (info.caps.parentInit = true →
      (callInitIfExists info path).1 = [.initCall path info.ty .withParent]) ∧
    (info.caps.parentInit = false → info.caps.ctxInit = true →
      (callInitIfExists info path).1 = [.initCall path info.ty .withCtx]) ∧
    (info.caps.parentInit = false → info.caps.ctxInit = false →
      info.caps.simpleInit = true →
      (callInitIfExists info path).1 = [.initCall path info.ty .noArg]) ∧
    (info.caps.parentInit = false → info.caps.ctxInit = false →
      info.caps.simpleInit = false → callInitIfExists info path = ([], none)) := by
  refine ⟨?_, ?_, ?_, ?_⟩ <;> intros <;> simp [callInitIfExists, *]

/-- Witness for C2: a struct implementing all three variants gets exactly
the ancestor-aware call; a struct implementing none is skipped silently. -/
theorem c2_witness :
    (callInitIfExists ⟨"T", ⟨true, true, true, false, false, false, false⟩, behOK⟩ []).1 =
      [.initCall [] "T" .withParent] ∧
    callInitIfExists ⟨"U", capsNone, behOK⟩ [] = ([], none) :=
  ⟨(c2_initializer_priority ⟨"T", ⟨true, true, true, false, false, false, false⟩, behOK⟩ []).1 rfl,
   (c2_initializer_priority ⟨"U", capsNone, behOK⟩ []).2.2.2 rfl rfl rfl⟩

/-- C3 counterexample: in the diamond of `TestDiamondDependency` — a
container whose `Left` and `Right` fields hold the same `*SharedNode` — the
shared node's initializer runs once, not once per reachable path: the full
event trace contains a single `initCall` for `SharedNode`, at path `Left`;
the visit through `Right` is skipped by the visited set. -/
theorem c3_counterexample :
    autoInitFuel diamondHeap ⟨false⟩ 12 (.byPtr (some 0)) =
      some ([.initCall ["Left"] "SharedNode" .withCtx], none) := by decide

/-- C3 (amended): an object reachable through two independent pointer
fields of one container is initialized exactly once per call — the first
path in declaration order runs its initializer and records the pointer
identity in the visited set, and the second path is skipped by the
cycle-detection check (pointer-identity deduplication applies to shared
diamond references, not only to literal cycles). -/
theorem c3_diamond_shared_initialized_once (cty sty lname rname : String) :
    autoInitFuel (diamondHeapP cty sty lname rname) ⟨false⟩ 12 (.byPtr (some 0)) =
      some ([.initCall [lname] sty .withCtx], none) := by
  rfl

/-- C7: AutoInit fails immediately with an invalid-target error — and emits
no events at all, so no traversal, hooks or initializer calls happen —
exactly when the root target is nil, a nil pointer, or not a struct or
pointer-to-struct; on every valid root the returned error (if any) is never
an invalid-target error. -/
theorem c7_invalid_target_iff (h : Heap) (o : Options) (fuel : Nat) (t : Target) :
    (targetInvalid h t = true →
      ∃ msg, autoInitFuel h o fuel t = some ([], some (.invalidTarget msg))) ∧
    (targetInvalid h t = false → ∀ ev er,
      autoInitFuel h o fuel t = some (ev, er) → isInvalidTargetErr er = false) := by
  constructor
  · intro hinv
    match t with
    | .nilT => exact ⟨_, rfl⟩
    | .byPtr none => exact ⟨_, rfl⟩
    | .byPtr (some a) =>
      simp only [targetInvalid] at hinv
      simp only [autoInitFuel]
      match hl : lookupHeap h a with
      | some (.structV info fs) => rw [hl] at hinv; simp at hinv
      | some (.ptrV x) => exact ⟨_, rfl⟩
      | some (.ifaceV x) => exact ⟨_, rfl⟩
      | some (.sliceV x y) => exact ⟨_, rfl⟩
      | some (.mapV x y) => exact ⟨_, rfl⟩
      | some .otherV => exact ⟨_, rfl⟩
      | none => exact ⟨_, rfl⟩
    | .byVal (.structV info fs) => simp [targetInvalid] at hinv
    | .byVal (.ptrV x) => exact ⟨_, rfl⟩
    | .byVal (.ifaceV x) => exact ⟨_, rfl⟩
    | .byVal (.sliceV x y) => exact ⟨_, rfl⟩
    | .byVal (.mapV x y) => exact ⟨_, rfl⟩
    | .byVal .otherV => exact ⟨_, rfl⟩
  · intro hval ev er heq
    match t with
    | .nilT => simp [targetInvalid] at hval
    | .byPtr none => simp [targetInvalid] at hval
    | .byPtr (some a) =>
      simp only [autoInitFuel] at heq
      match hl : lookupHeap h a with
      | some (.structV info fs) =>
        simp only [hl] at heq
        match hrun : run h o fuel [] (.ibody info fs []) with
        | none => rw [hrun] at heq; simp at heq
        | some out =>
          rw [hrun] at heq
          simp only [Option.map_some', Option.some.injEq, Prod.mk.injEq] at heq
          rw [← heq.2]
          match out.err with
          | none => rfl
          | some e => rfl
      | some (.ptrV x) => simp [targetInvalid, hl] at hval
      | some (.ifaceV x) => simp [targetInvalid, hl] at hval
      | some (.sliceV x y) => simp [targetInvalid, hl] at hval
      | some (.mapV x y) => simp [targetInvalid, hl] at hval
      | some .otherV => simp [targetInvalid, hl] at hval
      | none => simp [targetInvalid, hl] at hval
    | .byVal (.structV info fs) =>
      simp only [autoInitFuel] at heq
      match hrun : run h o fuel [] (.ibody info fs []) with
      | none => rw [hrun] at heq; simp at heq
      | some out =>
        rw [hrun] at heq
        simp only [Option.map_some', Option.some.injEq, Prod.mk.injEq] at heq
        rw [← heq.2]
        match out.err with
        | none => rfl
        | some e => rfl
    | .byVal (.ptrV x) => simp [targetInvalid] at hval
    | .byVal (.ifaceV x) => simp [targetInvalid] at hval
    | .byVal (.sliceV x y) => simp [targetInvalid] at hval
    | .byVal (.mapV x y) => simp [targetInvalid] at hval
    | .byVal .otherV => simp [targetInvalid] at hval

/-- Witness for C7: the nil target is rejected immediately with no events,
and a valid self-referential root yields no invalid-target error. -/
theorem c7_witness :
    (∃ msg, autoInitFuel ([] : Heap) ⟨false⟩ 5 .nilT =
      some ([], some (.invalidTarget msg))) ∧
    isInvalidTargetErr none = false :=
  ⟨(c7_invalid_target_iff [] ⟨false⟩ 5 .nilT).1 (by decide),
   (c7_invalid_target_iff selfHeap ⟨false⟩ 10 (.byPtr (some 0))).2 (by rfl)
     [.initCall ["Next"] "Node" .withCtx, .initCall [] "Node" .withCtx] none (by decide)⟩

/-- C8: a field tagged `autoinit:"-"` is never visited: processing a field
list with such a field at the head is identical to processing the remaining
fields — no hooks fire for it, no recursion into it happens, its
initializer is never called — for every `Options` value, i.e. regardless of
`RequireTags`. -/
theorem c8_dash_tag_always_skipped (h : Heap) (o : Options) (fuel : Nat)
    (vis : List Nat) (cinfo : SInfo) (m : FieldMeta) (fv : Val)
    (rest : List (FieldMeta × Val)) (path : List String)
    (htag : tagGet m.tags "autoinit" = "-") :
    run h o (fuel + 1) vis (.ifields cinfo ((m, fv) :: rest) path) =
      run h o fuel vis (.ifields cinfo rest path) := by
  simp only [run]
  split <;> try rfl

/-- Witness for C8: a `autoinit:"-"` field holding an initializable struct
is dropped from the field loop even with `RequireTags` enabled. -/
theorem c8_witness :
    run selfHeap ⟨true⟩ 7 [] (.ifields nodeInfo
        [(⟨"SkipMe", true, [("autoinit", "-")]⟩, .structV childInfo [])] []) =
      run selfHeap ⟨true⟩ 6 [] (.ifields nodeInfo [] []) :=
  c8_dash_tag_always_skipped selfHeap ⟨true⟩ 6 [] nodeInfo
    ⟨"SkipMe", true, [("autoinit", "-")]⟩ (.structV childInfo []) [] [] (by decide)

/-- C10: the root pointer's identity is never recorded in the visited set —
`AutoInitWithOptions` dereferences the root pointer before calling the
traversal and seeds an *empty* visited list — and consequently, in the
self-referential cycle of `TestSelfReferentialCycle`, the root node's
initializer is invoked twice in one call: once when reached as the nested
`Next` pointer and once at the root level. -/
theorem c10_root_identity_not_recorded :
    (∀ (h : Heap) (o : Options) (fuel : Nat) (a : Nat) (info : SInfo)
      (fs : List (FieldMeta × Val)), lookupHeap h a = some (.structV info fs) →
      autoInitFuel h o fuel (.byPtr (some a)) =
        (run h o fuel [] (.ibody info fs [])).map fun out =>
          (out.events, out.err.map .fromRun)) ∧
    autoInitFuel selfHeap ⟨false⟩ 10 (.byPtr (some 0)) =
      some ([.initCall ["Next"] "Node" .withCtx, .initCall [] "Node" .withCtx], none) := by
  constructor
  · intro h o fuel a info fs hl
    simp only [autoInitFuel]
    rw [hl]
  · decide

/-- Witness for C10 at the self-referential node. -/
theorem c10_witness :
    autoInitFuel selfHeap ⟨false⟩ 10 (.byPtr (some 0)) =
      (run selfHeap ⟨false⟩ 10 []
        (.ibody nodeInfo [(plainMeta "Next", .ptrV (some 0))] [])).map
        fun out => (out.events, out.err.map .fromRun) :=
  c10_root_identity_not_recorded.1 selfHeap ⟨false⟩ 10 0 nodeInfo
    [(plainMeta "Next", .ptrV (some 0))] rfl

/-- C5 counterexample: a container implementing `PreFieldInit` whose hook
fails with "boom" — AutoInit returns the *raw* user error, not an
`InitError`: `callPreFieldHook` passes hook errors through unwrapped,
with no path and no type name attached. -/
theorem c5_counterexample :
    autoInitFuel hookErrHeap ⟨false⟩ 10 (.byPtr (some 0)) =
      some ([.preField [] "HookContainer" "Child"],
        some (.fromRun (.user "boom"))) ∧
    isWrappedErr (.fromRun (.user "boom")) = false := by
  exact ⟨by decide, by decide⟩

/-- C5 (amended): initializer errors (and pre/post-self hook errors, which
use the same wrapping) are wrapped exactly once in `InitError` — carrying
the path, the failing type string and the raw cause — at the point of
origin; the container's pre-field/post-field hook errors are returned raw,
unwrapped; and every error the traversal propagates to the top keeps one of
exactly those two shapes (a raw user error, or an `InitError` whose cause
is a raw user error), i.e. no re-wrapping happens in enclosing frames. -/
theorem c5_error_wrapping_amended :
    (∀ (info : SInfo) (path : List String),
      (callInitIfExists info path).2 =
        match pickInit info.caps with
        | some _ => info.beh.initRes.map fun msg =>
            .initError path (ptrTyName info) (.user msg)
        | none => none) ∧
    (∀ (info : SInfo) (path : List String),
      (callPreInit info path).2 =
        if info.caps.preInitHook then
          info.beh.preInitRes.map fun msg =>
            .initError path (ptrTyName info) (.user msg)
        else none) ∧
    (∀ (info : SInfo) (path : List String),
      (callPostInit info path).2 =
        if info.caps.postInitHook then
          info.beh.postInitRes.map fun msg =>
            .initError path (ptrTyName info) (.user msg)
        else none) ∧
    (∀ (cinfo : SInfo) (p : List String) (n : String),
      (callPreFieldHook cinfo p n).2 =
        if cinfo.caps.preFieldHook then cinfo.beh.preFieldRes.map .user else none) ∧
    (∀ (cinfo : SInfo) (p : List String) (n : String),
      (callPostFieldHook cinfo p n).2 =
        if cinfo.caps.postFieldHook then cinfo.beh.postFieldRes.map .user else none) ∧
    (∀ (h : Heap) (o : Options) (fuel : Nat) (t : Target) (ev : List Event)
      (er : Option RootErr) (e : Err),
      autoInitFuel h o fuel t = some (ev, er) → er = some (.fromRun e) →
      errShape e) := by
  refine ⟨callInitIfExists_snd, callPreInit_snd, callPostInit_snd,
    callPreFieldHook_snd, callPostFieldHook_snd, ?_⟩
  intro h o fuel t ev er e heq her
  subst her
  match t with
  | .nilT => simp [autoInitFuel] at heq
  | .byPtr none => simp [autoInitFuel] at heq
  | .byPtr (some a) =>
    simp only [autoInitFuel] at heq
    match hl : lookupHeap h a with
    | some (.structV info fs) =>
      simp only [hl] at heq
      match hrun : run h o fuel [] (.ibody info fs []) with
      | none => rw [hrun] at heq; simp at heq
      | some out =>
        rw [hrun] at heq
        simp only [Option.map_some', Option.some.injEq, Prod.mk.injEq] at heq
        have herr : out.err = some e := by
          match houterr : out.err with
          | none => rw [houterr] at heq; simp at heq
          | some e₂ =>
            rw [houterr] at heq
            simp only [Option.map_some', Option.some.injEq,
              RootErr.fromRun.injEq] at heq
            rw [heq.2]
        have := (run_inv h o fuel [] _ out hrun).2.1
        rw [herr] at this
        exact this
    | some (.ptrV x) => simp [hl] at heq
    | some (.ifaceV x) => simp [hl] at heq
    | some (.sliceV x y) => simp [hl] at heq
    | some (.mapV x y) => simp [hl] at heq
    | some .otherV => simp [hl] at heq
    | none => simp [hl] at heq
  | .byVal (.structV info fs) =>
    simp only [autoInitFuel] at heq
    match hrun : run h o fuel [] (.ibody info fs []) with
    | none => rw [hrun] at heq; simp at heq
    | some out =>
      rw [hrun] at heq
      simp only [Option.map_some', Option.some.injEq, Prod.mk.injEq] at heq
      have herr : out.err = some e := by
        match houterr : out.err with
        | none => rw [houterr] at heq; simp at heq
        | some e₂ =>
          rw [houterr] at heq
          simp only [Option.map_some', Option.some.injEq,
            RootErr.fromRun.injEq] at heq
          rw [heq.2]
      have := (run_inv h o fuel [] _ out hrun).2.1
      rw [herr] at this
      exact this
  | .byVal (.ptrV x) => simp [autoInitFuel] at heq
  | .byVal (.ifaceV x) => simp [autoInitFuel] at heq
  | .byVal (.sliceV x y) => simp [autoInitFuel] at heq
  | .byVal (.mapV x y) => simp [autoInitFuel] at heq
  | .byVal .otherV => simp [autoInitFuel] at heq

/-- Witness for C5 (amended): the raw hook error surfaced by the failing
pre-field hook has the allowed (unwrapped user error) shape. -/
theorem c5_amended_witness : errShape (.user "boom") :=
  c5_error_wrapping_amended.2.2.2.2.2 hookErrHeap ⟨false⟩ 10 (.byPtr (some 0))
    [.preField [] "HookContainer" "Child"] (some (.fromRun (.user "boom")))
    (.user "boom") (by decide) rfl

/-- C4 counterexample: `matchesOption` combines the supplied predicates as a
*disjunction*: querying by type `*DB` and field name "B" together returns
field `A` (which matches the type but not the name) because it comes first
in declaration order — the Finder does not require all predicates
simultaneously. -/
theorem c4_counterexample :
    searchSiblings [] 5 cxParent none cxOpt = some cxValA ∧
    specMatchesAllOption [] cxFieldA cxValA cxOpt = false := by
  exact ⟨by rfl, by decide⟩

/-- C4 (amended): when a Finder query supplies predicates, a field matches
as soon as *any one* supplied predicate matches (disjunction, per
`matchesOption`), and at each level the first field in declaration order
that is not skipped (unexported / self / nil) and matches wins. -/
theorem c4_first_match_disjunction (impls : List (GoTy × String)) (fuel : Nat)
    (sname : String) (fields : List (FMeta × FVal)) (ex : Option Nat)
    (opt : SearchOption)
    (hplain : ∀ f ∈ fields, plainFField f = true) (hfuel : fields.length < fuel) :
    searchSiblings impls (fuel + 1) (.fstruct sname fields) ex opt =
      (fields.find? fun f =>
        siblingEligible ex f && matchesOption impls f.1 f.2 opt).map fun f => f.2 := by
  simp only [searchSiblings]
  exact searchFieldList_plain impls fields fuel ex opt hplain hfuel

/-- Witness for C4 (amended) on the two-field example struct. -/
theorem c4_witness :
    searchSiblings [] 4 (.fstruct "App" [(cxFieldA, cxValA), (cxFieldB, cxValB)])
        none cxOpt =
      ([(cxFieldA, cxValA), (cxFieldB, cxValB)].find? fun f =>
        siblingEligible none f && matchesOption [] f.1 f.2 cxOpt).map fun f => f.2 :=
  c4_first_match_disjunction [] 3 "App" [(cxFieldA, cxValA), (cxFieldB, cxValB)]
    none cxOpt (by decide) (by decide)

/-- C9 counterexample: with a filter supplied, `searchInStruct` returns
nothing for a parent whose only candidate is a slice element of exactly the
target type — collection elements are not "matched on type alone with
filters ignored"; they are skipped entirely whenever any filter is
present. -/
theorem c9_counterexample :
    searchInStruct [] 5 asSliceParent none (.ptrTo "DB") [.withFieldName "X"] = none ∧
    matchesTargetType [] (.fptr "DB" 1 (.fstruct "DB" [])) (.ptrTo "DB") = true := by
  exact ⟨by rfl, by decide⟩

/-- C9 (amended): in the typed lookup, slice/array element and map value
candidates are returned only when *no* filters were supplied (matching on
type alone); with one or more filters they are never returned; struct-field
candidates must match the target type and satisfy every supplied filter
conjunctively. -/
theorem c9_as_collection_filter_guard :
    (∀ (impls : List (GoTy × String)) (elems : List FVal) (ex : Option Nat)
      (ty : GoTy) (filters : List Filter), filters ≠ [] →
      asScanElems impls elems ex ty filters = none) ∧
    (∀ (impls : List (GoTy × String)) (ents : List (String × FVal))
      (ex : Option Nat) (ty : GoTy) (filters : List Filter), filters ≠ [] →
      asScanMapVals impls ents ex ty filters = none) ∧
    (∀ (impls : List (GoTy × String)) (elems : List FVal) (ex : Option Nat)
      (ty : GoTy),
      asScanElems impls elems ex ty [] =
        elems.find? fun e => !isExcluded ex e && matchesTargetType impls e ty) ∧
    (∀ (impls : List (GoTy × String)) (fields : List (FMeta × FVal))
      (ex : Option Nat) (ty : GoTy) (filters : List Filter) (r : FVal),
      firstPassFields impls fields ex ty filters = some r →
      ∃ mf ∈ fields, mf.2 = r ∧ matchesTargetType impls mf.2 ty = true ∧
        matchesAllFilters mf.1 filters = true) :=
  ⟨asScanElems_filters_nonempty, asScanMapVals_filters_nonempty,
   asScanElems_no_filters, firstPassFields_sound⟩

/-- Witness for C9 (amended): one filter prevents the slice element match;
with no filters the same element is found by type. -/
theorem c9_witness :
    asScanElems [] [.fptr "DB" 1 (.fstruct "DB" [])] none (.ptrTo "DB")
        [.withFieldName "X"] = none ∧
    asScanElems [] [.fptr "DB" 1 (.fstruct "DB" [])] none (.ptrTo "DB") [] =
      [FVal.fptr "DB" 1 (.fstruct "DB" [])].find? fun e =>
        !isExcluded none e && matchesTargetType [] e (.ptrTo "DB") :=
  ⟨c9_as_collection_filter_guard.1 [] [.fptr "DB" 1 (.fstruct "DB" [])] none
      (.ptrTo "DB") [.withFieldName "X"] (by decide),
   c9_as_collection_filter_guard.2.2.1 [] [.fptr "DB" 1 (.fstruct "DB" [])] none
      (.ptrTo "DB")⟩

/-- C6 counterexample: a container implementing both field hooks with an
*empty* slice of struct element type fires no hooks at all — the source
guards the slice hooks with `field.Len() > 0`, so "exactly once including
zero elements" fails for slices/arrays. -/
theorem c6_counterexample :
    autoInitFuel emptySliceHeap ⟨false⟩ 10 (.byPtr (some 0)) = some ([], none) ∧
    hooksOkContainer.caps.preFieldHook = true ∧ qualifiesElem .structTy = true := by
  exact ⟨by decide, rfl, rfl⟩

/-- C6 (amended): for a collection field of qualifying element type on a
container implementing the field hooks, the pre-field hook fires exactly
once for the whole collection (never once per element) — but for
slices/arrays only when the collection is nonempty (empty slices/arrays get
no hooks), while for maps it fires once even when empty; the post-field
hook behaves the same way on the success path. -/
theorem c6_collection_hook_cardinality (h : Heap) (o : Options) (fuel : Nat)
    (vis : List Nat) (cinfo : SInfo) (m : FieldMeta) (et : ElemTy)
    (rest : List (FieldMeta × Val)) (path : List String)
    (hE : fieldEligible o m = true) (hname : m.name ∉ fieldNames rest) :
    (∀ (es : List Val) (out : Out),
      run h o (fuel + 1) vis (.ifields cinfo ((m, .sliceV et es) :: rest) path) =
        some out →
      out.events.count (.preField path cinfo.ty m.name) =
        (if (decide (0 < es.length) && qualifiesElem et) && cinfo.caps.preFieldHook
          then 1 else 0) ∧
      (out.err = none →
        out.events.count (.postField path cinfo.ty m.name) =
          if (decide (0 < es.length) && qualifiesElem et) && cinfo.caps.postFieldHook
            then 1 else 0)) ∧
    (∀ (ents : List (String × Val)) (out : Out),
      run h o (fuel + 1) vis (.ifields cinfo ((m, .mapV et ents) :: rest) path) =
        some out →
      out.events.count (.preField path cinfo.ty m.name) =
        (if qualifiesElem et && cinfo.caps.preFieldHook then 1 else 0) ∧
      (out.err = none →
        out.events.count (.postField path cinfo.ty m.name) =
          if qualifiesElem et && cinfo.caps.postFieldHook then 1 else 0)) := by
  simp only [fieldEligible, Bool.and_eq_true] at hE
  obtain ⟨⟨h1, h2b⟩, h3b⟩ := hE
  have h2 : ¬(tagGet m.tags "autoinit" = "-") := by simpa using h2b
  have h3 : ¬(o.requireTags = true ∧ (tagLookup m.tags "autoinit").isNone = true) := by
    intro hcon
    simp [hcon.1, hcon.2] at h3b
  constructor
  · intro es out hr
    simp only [run] at hr
    rw [if_neg (by simp [h1]), if_neg h2, if_neg h3] at hr
    exact fieldBlock_counts (condPre_count_pre _ _ _ _) (condPre_count_post _ _ _ _)
      (condPost_count_post _ _ _ _) (condPost_count_pre _ _ _ _)
      (fun oo hoo => depthGE_mono (by simp [itemDepth])
        ((run_inv h o fuel vis _ oo hoo).2.2.1))
      (fun v oo hoo => run_inv h o fuel v _ oo hoo) hname hr
  · intro ents out hr
    simp only [run] at hr
    rw [if_neg (by simp [h1]), if_neg h2, if_neg h3] at hr
    exact fieldBlock_counts (condPre_count_pre _ _ _ _) (condPre_count_post _ _ _ _)
      (condPost_count_post _ _ _ _) (condPost_count_pre _ _ _ _)
      (fun oo hoo => depthGE_mono (by simp [itemDepth])
        ((run_inv h o fuel vis _ oo hoo).2.2.1))
      (fun v oo hoo => run_inv h o fuel v _ oo hoo) hname hr

/-- Witness for C6 (amended): a one-element struct slice on the
hook-implementing container has each hook fire exactly once. -/
theorem c6_witness :
    (Out.events ⟨[.preField [] "HookContainer" "Items",
        .initCall ["Items", "[0]"] "Child" .withCtx,
        .postField [] "HookContainer" "Items"], none, []⟩).count
      (.preField [] "HookContainer" "Items") =
      (if (decide (0 < [Val.structV childInfo []].length) &&
            qualifiesElem .structTy) && hooksOkContainer.caps.preFieldHook
        then 1 else 0) :=
  ((c6_collection_hook_cardinality [] ⟨false⟩ 6 [] hooksOkContainer
      (plainMeta "Items") .structTy [] [] (by decide) (by decide)).1
    [Val.structV childInfo []]
    ⟨[.preField [] "HookContainer" "Items",
      .initCall ["Items", "[0]"] "Child" .withCtx,
      .postField [] "HookContainer" "Items"], none, []⟩ (by decide)).1

end Autoinit
